import Mathlib

/-!
Verification of the Tada event-pipeline runtime against its specification.

The development shallowly embeds the TypeScript sources:
  * JavaScript runtime values are modelled by `JValue`; JS numbers are
    modelled as exact rationals (`ℚ`), the standard idealization for code
    whose arithmetic stays inside the safe-integer range.
  * JS `Map` / `Set` are modelled as association lists / duplicate-free
    lists with the insertion-order replace/append semantics of the runtime.
  * External library calls (bs58 / `PublicKey.toBase58`, `crypto` HMAC,
    `fetch`, `Date.toISOString`) are modelled as explicit function
    parameters of the embedded code; fallible calls return `Option` /
    `Except`.
Each embedded definition mirrors one source function of the repository and
is named after it.
-/

namespace Tada

/-- JS runtime value (string, finite number, boolean, null, object, array).
Numbers are modelled as exact rationals. -/
inductive JValue where
  | jnull
  | jbool (b : Bool)
  | num (q : ℚ)
  | str (s : String)
  | obj (fields : List (String × JValue))
  | arr (elems : List JValue)

/-- First-match lookup of a property in an object literal (JS object keys
are unique, so first match is the match). -/
def lookupField : List (String × JValue) → String → Option JValue
  | [], _ => none
  | (k, v) :: rest, key => if k = key then some v else lookupField rest key

/-- JS property access `value[key]` for the values the pipeline ever
indexes: objects by key, arrays by a numeric key; primitives yield
`undefined` (`none`). -/
def jsIndex : JValue → String → Option JValue
  | .obj fields, key => lookupField fields key
  | .arr elems, key =>
    match key.toNat? with
    | some i => elems.get? i
    | none => none
  | _, _ => none

/-- Decimal digits of a natural number parse helper. -/
def digitsVal (cs : List Char) : ℕ :=
  cs.foldl (fun acc c => acc * 10 + (c.toNat - 48)) 0

/-- JS `parseFloat` modelled on plain decimal literals: optional sign,
integer digits, optional fractional digits; trailing junk is ignored as in
JS; `none` models `NaN`.  (Exponent forms do not occur in this codebase.) -/
def jsParseFloat (s : String) : Option ℚ :=
  let cs := s.data.dropWhile (fun c => c = ' ')
  let (neg, cs) := match cs with
    | '-' :: rest => (true, rest)
    | '+' :: rest => (false, rest)
    | _ => (false, cs)
  let intPart := cs.takeWhile Char.isDigit
  let rest := cs.dropWhile Char.isDigit
  let fracPart := match rest with
    | '.' :: rest2 => rest2.takeWhile Char.isDigit
    | _ => []
  if intPart = [] ∧ fracPart = [] then none
  else
    let mag : ℚ := digitsVal intPart + (digitsVal fracPart : ℚ) / (10 : ℚ) ^ fracPart.length
    some (if neg then -mag else mag)

/-- Rendering of a rational as JS renders the corresponding number; exact
for integers (the only numeric strings this codebase compares). -/
def ratStr (q : ℚ) : String :=
  if q.den = 1 then toString q.num else toString q

mutual

/-- JS `String(value)` coercion. -/
def jstr : JValue → String
  | .jnull => "null"
  | .jbool b => if b then "true" else "false"
  | .num q => ratStr q
  | .str s => s
  | .obj _ => "[object Object]"
  | .arr elems => String.intercalate "," (jstrList elems)

/-- Pointwise `String(·)` over array elements (for array `toString`). -/
def jstrList : List JValue → List String
  | [] => []
  | v :: rest => jstr v :: jstrList rest

end

/-- JS strict equality `===` on the values compared by the filter engine:
primitive values compare by value, objects and arrays by reference — and the
two operands always come from different allocations here, so they are
never identical references. -/
def jsStrictEq : JValue → JValue → Bool
  | .jnull, .jnull => true
  | .jbool a, .jbool b => a = b
  | .num a, .num b => a = b
  | .str a, .str b => a = b
  | _, _ => false

/-- Contiguous-substring test on charater lists. -/
def listContainsSub : List Char → List Char → Bool
  | [], sub => sub.isEmpty
  | c :: rest, sub => sub.isPrefixOf (c :: rest) || listContainsSub rest sub

/-- JS `String.prototype.includes` (substring test). -/
def jsIncludes (s sub : String) : Bool :=
  listContainsSub s.data sub.data

/-- JS `String.prototype.toLowerCase`, modelled characterwise (identical
to the runtime on the ASCII event names this codebase handles). -/
def jsToLower (s : String) : String :=
  ⟨s.data.map Char.toLower⟩

/-- Numeric coercion used by `isNaN` / relational operators on a non-string
operand; `none` models `NaN`.  Objects and non-trivial arrays coerce to
`NaN`-like behaviour in the inputs this code ever sees. -/
def jsNumCoerce : JValue → Option ℚ
  | .num q => some q
  | .jbool b => some (if b then 1 else 0)
  | .jnull => some 0
  | .str s => jsParseFloat s
  | .obj _ => none
  | .arr _ => none

/-- Event source attribution (`EventSource` in the shared types). -/
structure EventSource where
  type : String
  outerProgram : Option String

/-- The normalized event record (`DecodedEvent` in the shared types).
`program` is the symbolic program id; `data` the decoded field map. -/
structure DecodedEvent where
  id : String
  program : String
  programAddress : String
  name : String
  signature : String
  slot : ℚ
  blockTime : ℚ
  signer : String
  source : EventSource
  data : List (String × JValue)

/-- View of a `DecodedEvent` as the JS object the dotted-path lookup walks. -/
def eventToJValue (e : DecodedEvent) : JValue :=
  .obj [("id", .str e.id),
        ("program", .str e.program),
        ("programAddress", .str e.programAddress),
        ("name", .str e.name),
        ("signature", .str e.signature),
        ("slot", .num e.slot),
        ("blockTime", .num e.blockTime),
        ("signer", .str e.signer),
        ("source", .obj (("type", .str e.source.type) ::
           (match e.source.outerProgram with
            | some p => [("outerProgram", .str p)]
            | none => []))),
        ("data", .obj e.data)]

/-- `getFieldValue` (filter.ts): dotted-path lookup on the event object;
a missing step or a `null`/`undefined` intermediate yields `undefined`. -/
def getFieldValue (event : DecodedEvent) (field : String) : Option JValue :=
  (field.splitOn ".").foldl
    (fun current part =>
      match current with
      | none => none
      | some .jnull => none
      | some v => jsIndex v part)
    (some (eventToJValue event))

/-! ## Filter engine (`src/apps/pipeline/src/filter.ts`) -/

/-- Filter comparison operator (`FilterOperator` in the shared types). -/
inductive FilterOperator where
  | eq | neq | gt | gte | lt | lte | opIn | nin | contains

/-- One `{field, op, value}` condition (`FilterCondition`). -/
structure FilterCondition where
  field : String
  op : FilterOperator
  value : JValue

/-- Account constraints of a filter; `includeList`/`excludeList` embed the
source fields `include`/`exclude` (renamed: `include` is a Lean keyword). -/
structure FilterAccounts where
  includeList : Option (List String)
  excludeList : Option (List String)

/-- Numeric range of the convenience filters `solAmount`/`tokenAmount`. -/
structure AmountRange where
  min : Option ℚ
  max : Option ℚ

/-- The recursive `Filter` type of the shared types.  `andF`/`orF` embed
the source fields `$and`/`$or` (`$` is not a Lean identifier character).
A field holds `none` when the corresponding key is absent from the filter
object. -/
inductive Filter where
  | mk (instructions : Option (List String))
       (accounts : Option FilterAccounts)
       (conditions : Option (List FilterCondition))
       (mints : Option (List String))
       (wallets : Option (List String))
       (isBuy : Option Bool)
       (solAmount : Option AmountRange)
       (tokenAmount : Option AmountRange)
       (andF : Option (List Filter))
       (orF : Option (List Filter))
       (code : Option String)

def Filter.instructions : Filter → Option (List String)
  | .mk i _ _ _ _ _ _ _ _ _ _ => i

def Filter.accounts : Filter → Option FilterAccounts
  | .mk _ a _ _ _ _ _ _ _ _ _ => a

def Filter.conditions : Filter → Option (List FilterCondition)
  | .mk _ _ c _ _ _ _ _ _ _ _ => c

def Filter.mints : Filter → Option (List String)
  | .mk _ _ _ m _ _ _ _ _ _ _ => m

def Filter.wallets : Filter → Option (List String)
  | .mk _ _ _ _ w _ _ _ _ _ _ => w

def Filter.isBuy : Filter → Option Bool
  | .mk _ _ _ _ _ b _ _ _ _ _ => b

def Filter.solAmount : Filter → Option AmountRange
  | .mk _ _ _ _ _ _ s _ _ _ _ => s

def Filter.tokenAmount : Filter → Option AmountRange
  | .mk _ _ _ _ _ _ _ t _ _ _ => t

def Filter.andF : Filter → Option (List Filter)
  | .mk _ _ _ _ _ _ _ _ a _ _ => a

def Filter.orF : Filter → Option (List Filter)
  | .mk _ _ _ _ _ _ _ _ _ o _ => o

def Filter.code : Filter → Option String
  | .mk _ _ _ _ _ _ _ _ _ _ c => c

/-- The filter object has no keys (`Object.keys(filter).length === 0`):
every field is absent. -/
def Filter.isEmptyObj : Filter → Bool
  | .mk i a c m w b s t an o cd =>
    i.isNone && a.isNone && c.isNone && m.isNone && w.isNone && b.isNone &&
    s.isNone && t.isNone && an.isNone && o.isNone && cd.isNone

/-- Field names recognized as account-bearing by `extractAccounts`. -/
def accountFieldNames : List String :=
  ["pool", "user", "mint", "tokenMint", "baseMint", "quoteMint",
   "authority", "owner", "payer", "creator", "config", "tokenAccount",
   "sourceTokenAccount", "destinationTokenAccount", "feeAccount"]

mutual

/-- Recursive walk of `extractAccounts` over one value: an account-named
string field of length ≥ 32 is collected, and nested objects are entered. -/
def extractFromValue : JValue → List String
  | .obj fields => extractFromFields fields
  | .arr elems => extractFromElems elems
  | _ => []

/-- Walk over the entries of an object. -/
def extractFromFields : List (String × JValue) → List String
  | [] => []
  | (key, value) :: rest =>
    (if accountFieldNames.contains key then
       match value with
       | .str s => if s.length ≥ 32 then [s] else []
       | _ => []
     else []) ++ extractFromValue value ++ extractFromFields rest

/-- Walk over the elements of an array (JS recurses into arrays as
objects with index keys, which never match an account field name). -/
def extractFromElems : List JValue → List String
  | [] => []
  | v :: rest => extractFromValue v ++ extractFromElems rest

end

/-- `extractAccounts` (filter.ts): the signer plus every account-like
string found in the event data. -/
def extractAccounts (event : DecodedEvent) : List String :=
  event.signer :: extractFromFields event.data

/-- Branch of `compareValues` for an `undefined`/`null` actual value. -/
def cmpMissing (op : FilterOperator) (expected : JValue) : Bool :=
  match op with
  | .eq => match expected with | .jnull => true | _ => false
  | .neq => match expected with | .jnull => false | _ => true
  | _ => false

/-- `compareValues` (filter.ts): dynamic comparison of the looked-up event
value against the condition value; `none` on the left models
`undefined`/missing. -/
def compareValues (actual : Option JValue) (op : FilterOperator) (expected : JValue) : Bool :=
  match actual with
  | none => cmpMissing op expected
  | some .jnull => cmpMissing op expected
  | some a =>
    let numActual := match a with
      | .str s => jsParseFloat s
      | v => jsNumCoerce v
    let numExpected := match expected with
      | .str s => jsParseFloat s
      | v => jsNumCoerce v
    match op with
    | .eq => jsStrictEq a expected || jstr a == jstr expected
    | .neq => !jsStrictEq a expected && jstr a != jstr expected
    | .gt =>
      match numActual, numExpected with
      | some x, some y => x > y
      | _, _ => false
    | .gte =>
      match numActual, numExpected with
      | some x, some y => x ≥ y
      | _, _ => false
    | .lt =>
      match numActual, numExpected with
      | some x, some y => x < y
      | _, _ => false
    | .lte =>
      match numActual, numExpected with
      | some x, some y => x ≤ y
      | _, _ => false
    | .opIn =>
      match expected with
      | .arr es => es.any (fun e => jsStrictEq a e) || (jstrList es).contains (jstr a)
      | _ => false
    | .nin =>
      match expected with
      | .arr es => !(es.any (fun e => jsStrictEq a e)) && !((jstrList es).contains (jstr a))
      | _ => true
    | .contains =>
      match a with
      | .str s => jsIncludes (jsToLower s) (jsToLower (jstr expected))
      | _ => false

/-- `evaluateCondition` (filter.ts). -/
def evaluateCondition (condition : FilterCondition) (event : DecodedEvent) : Bool :=
  compareValues (getFieldValue event condition.field) condition.op condition.value

/-- Sequential checks of `evaluateFilter` after the `$and`/`$or` branches:
`instructions`, `accounts.include`/`accounts.exclude`, `conditions`.
A failing present check returns `false`; the trailing `code` key only logs
a warning and does not affect the result. -/
def evalChecks (instructions : Option (List String))
    (accounts : Option FilterAccounts)
    (conditions : Option (List FilterCondition))
    (event : DecodedEvent) : Bool :=
  let instrOk :=
    match instructions with
    | some li => if li.length > 0 then li.contains event.name else true
    | none => true
  if !instrOk then false
  else
    let accountsOk :=
      match accounts with
      | some acc =>
        let eventAccounts := extractAccounts event
        let includeOk :=
          match acc.includeList with
          | some inc =>
            if inc.length > 0 then inc.any (fun addr => eventAccounts.contains addr) else true
          | none => true
        if !includeOk then false
        else
          match acc.excludeList with
          | some exc =>
            if exc.length > 0 then !(exc.any (fun addr => eventAccounts.contains addr)) else true
          | none => true
      | none => true
    if !accountsOk then false
    else
      match conditions with
      | some cs =>
        if cs.length > 0 then cs.all (fun c => evaluateCondition c event) else true
      | none => true

mutual

/-- `evaluateFilter` (filter.ts): empty filter passes everything; a present
non-empty `$and` is the conjunction of its children; else a present
non-empty `$or` is the disjunction; else the sequential checks run.  The
convenience fields `mints`/`wallets`/`isBuy`/`solAmount`/`tokenAmount` are
not consulted anywhere in the source. -/
def evaluateFilter : Filter → DecodedEvent → Bool
  | .mk instructions accounts conditions mints wallets isBuy solA tokA andF orF code, event =>
    if (Filter.mk instructions accounts conditions mints wallets isBuy solA tokA
          andF orF code).isEmptyObj then true
    else
      match andF with
      | some l =>
        if l.length > 0 then evalAllFilters l event
        else
          match orF with
          | some l2 =>
            if l2.length > 0 then evalAnyFilter l2 event
            else evalChecks instructions accounts conditions event
          | none => evalChecks instructions accounts conditions event
      | none =>
        match orF with
        | some l2 =>
          if l2.length > 0 then evalAnyFilter l2 event
          else evalChecks instructions accounts conditions event
        | none => evalChecks instructions accounts conditions event

/-- `filter.$and.every(f => evaluateFilter(f, event))`. -/
def evalAllFilters : List Filter → DecodedEvent → Bool
  | [], _ => true
  | f :: rest, event => evaluateFilter f event && evalAllFilters rest event

/-- `filter.$or.some(f => evaluateFilter(f, event))`. -/
def evalAnyFilter : List Filter → DecodedEvent → Bool
  | [], _ => false
  | f :: rest, event => evaluateFilter f event || evalAnyFilter rest event

end

/-- The filter object with no keys at all. -/
def emptyFilter : Filter :=
  .mk none none none none none none none none none none none

/-- A filter object whose only key is `$and`. -/
def mkAnd (children : List Filter) : Filter :=
  .mk none none none none none none none none (some children) none none

/-- A filter object whose only key is `$or`. -/
def mkOr (children : List Filter) : Filter :=
  .mk none none none none none none none none none (some children) none

/-! ## Association lists with JS `Map`/object-assignment semantics -/

/-- JS `Map.prototype.get` / object property read: first matching key. -/
def mapGet {α : Type} : List (String × α) → String → Option α
  | [], _ => none
  | (k, v) :: rest, key => if k = key then some v else mapGet rest key

/-- JS `Map.prototype.set` / object property write: replace the value of
an existing key in place, else append the new entry. -/
def mapSet {α : Type} : List (String × α) → String → α → List (String × α)
  | [], key, value => [(key, value)]
  | (k, v) :: rest, key, value =>
    if k = key then (key, value) :: rest else (k, v) :: mapSet rest key value

/-- JS `Map.prototype.delete`: drop the entry of the key (keys are unique). -/
def mapDelete {α : Type} : List (String × α) → String → List (String × α)
  | [], _ => []
  | (k, v) :: rest, key => if k = key then rest else (k, v) :: mapDelete rest key

/-- JS `Set.prototype.add`: append if not already a member. -/
def setAdd (s : List String) (x : String) : List String :=
  if s.contains x then s else s ++ [x]

/-- JS `Set.prototype.delete`: remove the member (members are unique). -/
def setDelete : List String → String → List String
  | [], _ => []
  | y :: rest, x => if y = x then rest else y :: setDelete rest x

/-! ## Transform engine (transform.ts, bundled in `filter.ts`) -/

/-- `LAMPORTS_PER_SOL` from the shared types. -/
def LAMPORTS_PER_SOL : ℚ := 1000000000

/-- `toNumber` (transform.ts): numbers pass through (bigints are numbers
in this model), numeric strings parse with `NaN ↦ 0`, anything else is 0. -/
def toNumber : JValue → ℚ
  | .num q => q
  | .str s => (jsParseFloat s).getD 0
  | _ => 0

/-- JS truthiness. -/
def truthy : JValue → Bool
  | .jnull => false
  | .jbool b => b
  | .num q => q ≠ 0
  | .str s => s ≠ ""
  | .obj _ => true
  | .arr _ => true

/-- JS `x || y` on possibly-undefined operands (`none` = `undefined`):
the left operand if truthy, else the right operand unchanged. -/
def jsOr (x y : Option JValue) : Option JValue :=
  match x with
  | some v => if truthy v then some v else y
  | none => y

/-- Initial real token reserves of the pump.fun bonding curve
(`PUMP_INITIAL_REAL_TOKEN_RESERVES` in transform.ts). -/
def PUMP_INITIAL_REAL_TOKEN_RESERVES : ℚ := 793100000000000

/-- JS `Math.round`: round half towards positive infinity. -/
def jsRound (q : ℚ) : ℚ := (⌊q + 1/2⌋ : ℤ)

/-- The transform pipe names (`TransformPipe` in the shared types). -/
inductive TransformPipe where
  | lamportsToSol | base58 | timestamp | shorten | bondingCurveProgress

/-- JS `value === true` / `value === false` for a possibly-undefined value. -/
def jsEqBool (v : Option JValue) (b : Bool) : Bool :=
  match v with
  | some (.jbool b2) => b2 = b
  | _ => false

/-- JS `value === n` against a number literal, for a possibly-undefined value. -/
def jsEqNum (v : Option JValue) (q : ℚ) : Bool :=
  match v with
  | some (.num q2) => q2 = q
  | _ => false

/-- `applyPipe` (transform.ts).  `toISO` embeds the external
`Date.prototype.toISOString` used by the `timestamp` pipe. -/
def applyPipe (toISO : ℚ → String) (value : JValue) (pipe : TransformPipe) : JValue :=
  match pipe with
  | .lamportsToSol => .num (toNumber value / LAMPORTS_PER_SOL)
  | .base58 => .str (jstr value)
  | .timestamp => .str (toISO (toNumber value * 1000))
  | .shorten =>
    let str := jstr value
    if str.length > 12 then .str (str.take 4 ++ "..." ++ str.takeRight 4)
    else .str str
  | .bondingCurveProgress =>
    let currentReserves := toNumber value
    let progress := ((PUMP_INITIAL_REAL_TOKEN_RESERVES - currentReserves) /
        PUMP_INITIAL_REAL_TOKEN_RESERVES) * 100
    .num (jsRound (max 0 (min 100 progress) * 100) / 100)

/-- `extractTradeData` (transform.ts): the canonical trade record of the
`trade` template.  Keys are assembled in source order with JS object
assignment semantics. -/
def extractTradeData (event : DecodedEvent) : List (String × JValue) :=
  let d := event.data
  let dget := fun (key : String) => lookupField d key
  let name := jsToLower event.name
  let result : List (String × JValue) :=
    [("type", .str "trade"), ("eventName", .str event.name), ("trader", .str event.signer)]
  let isBuy := match dget "is_buy" with
    | some v => some v
    | none => dget "isBuy"
  let tradeDirection := match dget "trade_direction" with
    | some v => some v
    | none => dget "tradeDirection"
  let result :=
    if jsIncludes name "buy" || jsEqBool isBuy true || jsEqNum tradeDirection 0 then
      mapSet result "direction" (.str "buy")
    else if jsIncludes name "sell" || jsEqBool isBuy false || jsEqNum tradeDirection 1 then
      mapSet result "direction" (.str "sell")
    else
      mapSet result "direction" (.str "swap")
  let token := jsOr (dget "mint") (jsOr (dget "token_mint") (jsOr (dget "tokenMint")
      (jsOr (dget "base_mint") (jsOr (dget "baseMint") (jsOr (dget "input_mint")
      (jsOr (dget "inputMint") (jsOr (dget "pool") (some .jnull))))))))
  let result := mapSet result "token" (token.getD .jnull)
  let solAmount := jsOr (dget "sol_amount") (jsOr (dget "solAmount") (jsOr (dget "quote_amount")
      (jsOr (dget "quoteAmount") (jsOr (dget "sol_reserve_amount") (dget "solReserveAmount")))))
  let result := match solAmount with
    | some v => mapSet result "solAmount" (.num (toNumber v / LAMPORTS_PER_SOL))
    | none => result
  let tokenAmount := jsOr (dget "token_amount") (jsOr (dget "tokenAmount")
      (jsOr (dget "base_amount") (jsOr (dget "baseAmount") (dget "amount"))))
  let result := match tokenAmount with
    | some v => mapSet result "tokenAmount" (.num (toNumber v))
    | none => result
  let inputAmount := jsOr (dget "input_amount") (dget "inputAmount")
  let outputAmount := jsOr (dget "output_amount") (dget "outputAmount")
  let result := match inputAmount with
    | some v => mapSet result "inputAmount" (.num (toNumber v))
    | none => result
  let result := match outputAmount with
    | some v => mapSet result "outputAmount" (.num (toNumber v))
    | none => result
  let swapResult := jsOr (dget "swap_result") (dget "swapResult")
  let result := match swapResult with
    | some sw =>
      if truthy sw then
        let sget := fun (key : String) => jsIndex sw key
        let inp := jsOr (sget "included_fee_input_amount") (jsOr (sget "includedFeeInputAmount")
            (jsOr (sget "actual_input_amount") (sget "actualInputAmount")))
        let result := mapSet result "inputAmount" (.num (toNumber (inp.getD .jnull)))
        let outp := jsOr (sget "output_amount") (sget "outputAmount")
        let result := mapSet result "outputAmount" (.num (toNumber (outp.getD .jnull)))
        let fee := jsOr (sget "trading_fee") (sget "tradingFee")
        mapSet result "tradingFee" (.num (toNumber (fee.getD .jnull)))
      else result
    | none => result
  let virtualSolReserves := jsOr (dget "virtual_sol_reserves") (dget "virtualSolReserves")
  let virtualTokenReserves := jsOr (dget "virtual_token_reserves") (dget "virtualTokenReserves")
  let result := match virtualSolReserves, virtualTokenReserves with
    | some vs, some vt =>
      if truthy vs && truthy vt then
        let solReserves := toNumber vs
        let tokenReserves := toNumber vt
        if tokenReserves > 0 then mapSet result "price" (.num (solReserves / tokenReserves))
        else result
      else result
    | _, _ => result
  mapSet result "pool" ((jsOr (dget "pool") (some .jnull)).getD .jnull)

/-! ## Webhook delivery (`src/apps/delivery/src/webhook.ts`) -/

/-- Backoff flavour of a webhook retry policy. -/
inductive BackoffType where
  | exponential | linear

/-- Retry policy of a webhook destination (`retry?` in the shared types);
both fields are optional in the source. -/
structure RetryPolicy where
  attempts : Option ℕ
  backoff : Option BackoffType

/-- Signing configuration (`signing?` in the shared types). -/
structure SigningConfig where
  secret : String
  header : Option String

/-- `WebhookDestination` from the shared types (the fields `sendToWebhook`
reads). -/
structure WebhookDestination where
  enabled : Bool
  url : String
  method : Option String
  headers : List (String × String)
  signing : Option SigningConfig
  retry : Option RetryPolicy

/-- Outcome of one `fetch` call: a response with an HTTP status, or a
thrown transport error. -/
inductive FetchResult where
  | resp (status : ℕ)
  | thrown

/-- `calculateBackoff` (webhook.ts): delay in milliseconds before the next
attempt, as a function of the just-failed attempt number (1-based). -/
def calculateBackoff (attempt : ℕ) (type : BackoffType) : ℕ :=
  match type with
  | .linear => attempt * 1000
  | .exponential => 2 ^ (attempt - 1) * 1000

/-- Trace of one `sendToWebhook` call: the boolean result, the number of
HTTP attempts performed, the sleeps in order, and the signature header
that was computed, if any. -/
structure SendResult where
  success : Bool
  attempts : ℕ
  sleeps : List ℕ
  signatureHeader : Option (String × String)

/-- The retry loop of `sendToWebhook`.  `fr k` is the outcome of the k-th
`fetch` attempt; `attempt` is the current 1-based attempt number and
`remaining` the number of loop iterations left (`maxAttempts - attempt + 1`).
Returns (result, attempts performed, sleeps). -/
def sendLoop (fr : ℕ → FetchResult) (bt : BackoffType) :
    (attempt : ℕ) → (remaining : ℕ) → Bool × ℕ × List ℕ
  | _, 0 => (false, 0, [])
  | attempt, remaining + 1 =>
    let retryOn :=
      if remaining > 0 then
        let r := sendLoop fr bt (attempt + 1) remaining
        (r.1, r.2.1 + 1, calculateBackoff attempt bt :: r.2.2)
      else (false, 1, [])
    match fr attempt with
    | .thrown => retryOn
    | .resp status =>
      if 200 ≤ status ∧ status < 300 then (true, 1, [])
      else if 400 ≤ status ∧ status < 500 then (false, 1, [])
      else retryOn

/-- `sendToWebhook` (webhook.ts).  External effects are parameters: `sign`
embeds the `crypto` HMAC (`signPayload`), `fr` the `fetch` outcomes; the
JSON payload string is taken as given (`payload`). -/
def sendToWebhook (sign : String → String → String) (fr : ℕ → FetchResult)
    (destination : WebhookDestination) (payload : String) : SendResult :=
  if !destination.enabled || destination.url = "" then
    { success := false, attempts := 0, sleeps := [], signatureHeader := none }
  else
    let signatureHeader :=
      match destination.signing with
      | some sg =>
        if sg.secret = "" then none
        else some (sg.header.getD "X-Tada-Signature", "sha256=" ++ sign payload sg.secret)
      | none => none
    let maxAttempts := (destination.retry.bind (fun r => r.attempts)).getD 3
    let backoffType := (destination.retry.bind (fun r => r.backoff)).getD .exponential
    let r := sendLoop fr backoffType 1 maxAttempts
    { success := r.1, attempts := r.2.1, sleeps := r.2.2, signatureHeader := signatureHeader }

/-! ## Pipeline and destination types (shared types) -/

/-- Discord destination (the fields relevant to configuration). -/
structure DiscordDestination where
  enabled : Bool
  webhookUrl : String
  format : Option String

/-- Telegram destination. -/
structure TelegramDestination where
  enabled : Bool
  botToken : String
  chatId : String
  format : Option String

/-- WebSocket destination. -/
structure WebSocketDestination where
  enabled : Bool
  channelId : Option String

/-- Postgres destination. -/
structure PostgresDestination where
  enabled : Bool
  connectionString : String
  table : String
  onConflict : Option String

/-- Kafka destination. -/
structure KafkaDestination where
  enabled : Bool
  brokers : List String
  topic : String
  auth : Option (String × String)

/-- S3 destination. -/
structure S3Destination where
  enabled : Bool
  bucket : String
  region : String
  prefix? : Option String
  credentials : String × String

/-- Tada storage destination. -/
structure TadaStorageDestination where
  enabled : Bool

/-- The `Destinations` bundle: each sink is optional (absent key = `none`). -/
structure Destinations where
  discord : Option DiscordDestination
  telegram : Option TelegramDestination
  websocket : Option WebSocketDestination
  webhook : Option WebhookDestination
  postgres : Option PostgresDestination
  kafka : Option KafkaDestination
  s3 : Option S3Destination
  tadaStorage : Option TadaStorageDestination

/-- A destinations bundle with no keys. -/
def Destinations.empty : Destinations :=
  ⟨none, none, none, none, none, none, none, none⟩

/-- `Object.keys(destinations).length`: the number of present sink keys. -/
def destinationsKeyCount (d : Destinations) : ℕ :=
  (if d.discord.isSome then 1 else 0) + (if d.telegram.isSome then 1 else 0) +
  (if d.websocket.isSome then 1 else 0) + (if d.webhook.isSome then 1 else 0) +
  (if d.postgres.isSome then 1 else 0) + (if d.kafka.isSome then 1 else 0) +
  (if d.s3.isSome then 1 else 0) + (if d.tadaStorage.isSome then 1 else 0)

/-- Whether some destination in the bundle is enabled. -/
def Destinations.someEnabled (d : Destinations) : Bool :=
  d.discord.any (fun x => x.enabled) || d.telegram.any (fun x => x.enabled) ||
  d.websocket.any (fun x => x.enabled) || d.webhook.any (fun x => x.enabled) ||
  d.postgres.any (fun x => x.enabled) || d.kafka.any (fun x => x.enabled) ||
  d.s3.any (fun x => x.enabled) || d.tadaStorage.any (fun x => x.enabled)

/-- Pipeline status. -/
inductive PipelineStatus where
  | active | paused | error
deriving DecidableEq

/-- `Transform` of the shared types. -/
structure Transform where
  mode : String
  template : Option String
  fields : Option (List (String × String × Option TransformPipe))
  code : Option String

/-- `Pipeline` of the shared types (the fields the engine reads; the
`Date` timestamps are epoch milliseconds, the optional computed `metrics`
is never read by the engine and is omitted). -/
structure Pipeline where
  id : String
  name : String
  apiKey : String
  programs : List String
  filter : Filter
  transform : Transform
  destinations : Destinations
  status : PipelineStatus
  createdAt : ℚ
  updatedAt : ℚ

/-! ## Pipeline engine state (`engine.ts`, `src/unnamed/part_008`) -/

/-- The two private maps of `PipelineEngine`: pipeline storage keyed by id
and the `programId → Set pipelineId` index. -/
structure PipelineEngine where
  pipelines : List (String × Pipeline)
  programIndex : List (String × List String)

/-- The engine as constructed: both maps empty. -/
def PipelineEngine.empty : PipelineEngine := ⟨[], []⟩

/-- `addToIndex` (engine.ts): for every program of the pipeline, create the
bucket on demand and add the pipeline id. -/
def addToIndex (pipeline : Pipeline) (st : PipelineEngine) : PipelineEngine :=
  let step := fun idx programId =>
    mapSet idx programId (setAdd ((mapGet idx programId).getD []) pipeline.id)
  { st with programIndex := pipeline.programs.foldl step st.programIndex }

/-- `removeFromIndex` (engine.ts): look the pipeline up by id, remove the
id from every one of its programs' buckets, and drop buckets that become
empty. -/
def removeFromIndex (pipelineId : String) (st : PipelineEngine) : PipelineEngine :=
  match mapGet st.pipelines pipelineId with
  | none => st
  | some pipeline =>
    let step := fun idx programId =>
      match mapGet idx programId with
      | none => idx
      | some pipelineIds =>
        let pipelineIds := setDelete pipelineIds pipelineId
        if pipelineIds.length = 0 then mapDelete idx programId
        else mapSet idx programId pipelineIds
    { st with programIndex := pipeline.programs.foldl step st.programIndex }

/-- `upsertPipeline` (engine.ts): unindex a previous version if present,
store, and index — with no validation of any kind. -/
def upsertPipeline (pipeline : Pipeline) (st : PipelineEngine) : PipelineEngine :=
  let st := if (mapGet st.pipelines pipeline.id).isSome then removeFromIndex pipeline.id st else st
  let st := { st with pipelines := mapSet st.pipelines pipeline.id pipeline }
  addToIndex pipeline st

/-- `removePipeline` (engine.ts): returns `false` when the id is unknown,
else unindexes then deletes. -/
def removePipeline (id : String) (st : PipelineEngine) : Bool × PipelineEngine :=
  if (mapGet st.pipelines id).isNone then (false, st)
  else
    let st := removeFromIndex id st
    (true, { st with pipelines := mapDelete st.pipelines id })

/-- `getPipelinesForProgram` (engine.ts): resolve the bucket ids to stored
pipelines, keeping only defined, active ones. -/
def getPipelinesForProgram (programId : String) (st : PipelineEngine) : List Pipeline :=
  match mapGet st.programIndex programId with
  | none => []
  | some pipelineIds =>
    (pipelineIds.filterMap (fun id => mapGet st.pipelines id)).filter
      (fun p => p.status = PipelineStatus.active)

/-- A control-plane call against the engine. -/
inductive EngineOp where
  | upsert (pipeline : Pipeline)
  | remove (id : String)

/-- One engine call. -/
def stepOp (st : PipelineEngine) : EngineOp → PipelineEngine
  | .upsert p => upsertPipeline p st
  | .remove id => (removePipeline id st).2

/-- A finite sequence of `upsertPipeline`/`removePipeline` calls starting
from the freshly constructed engine. -/
def runOps (ops : List EngineOp) : PipelineEngine :=
  ops.foldl stepOp PipelineEngine.empty

/-! ## Parser router (`src/unnamed/part_004`) -/

/-- The part of a Laserstream transaction the router reads: the full
account-key set (static message keys plus lookup-table loaded addresses,
already base58-rendered — the bs58 step is external). -/
structure TransactionEnvelope where
  accountKeysStatic : List String
  loadedWritable : List String
  loadedReadonly : List String

/-- A stream update; `transaction` is absent for non-transaction updates. -/
structure SubscribeUpdate where
  transaction : Option TransactionEnvelope

/-- `getAccountKeys` (types.ts): static keys then loaded writable then
loaded readonly addresses. -/
def getAccountKeys (tx : TransactionEnvelope) : List String :=
  tx.accountKeysStatic ++ tx.loadedWritable ++ tx.loadedReadonly

/-- A registered program decoder: its id, address, and `parse` behaviour;
a raised error is an `Except.error`. -/
structure ProgramParser where
  programId : String
  programAddress : String
  parse : SubscribeUpdate → Except String (List DecodedEvent)

/-- `PARSER_MAP` construction: register every decoder under its address. -/
def parserMap (parsers : List ProgramParser) : List (String × ProgramParser) :=
  parsers.foldl (fun m p => mapSet m p.programAddress p) []

/-- The `involvedParsers` collection loop of `parseTransaction`: walk the
account keys, look each up in the parser map, and keep first occurrences.
(JS dedups by object reference; each registered decoder object is reachable
from exactly one address, so address equality is reference equality here.) -/
def involvedParsers (parsers : List ProgramParser) (accountKeys : List String) :
    List ProgramParser :=
  accountKeys.foldl
    (fun acc accountKey =>
      match mapGet (parserMap parsers) accountKey with
      | some parser =>
        if acc.any (fun q => q.programAddress = parser.programAddress) then acc
        else acc ++ [parser]
      | none => acc)
    []

/-- `parseTransaction` (index.ts of the ingestion decoders): try every
involved decoder, concatenating successes and skipping decoders that
raise. -/
def parseTransaction (parsers : List ProgramParser) (update : SubscribeUpdate) :
    List DecodedEvent :=
  match update.transaction with
  | none => []
  | some tx =>
    let accountKeys := getAccountKeys tx
    let involved := involvedParsers parsers accountKeys
    if involved.length = 0 then []
    else
      involved.foldl
        (fun allEvents parser =>
          match parser.parse update with
          | .ok events => allEvents ++ events
          | .error _ => allEvents)
        []

/-! ## Meteora DBC `EvtSwap2` decoding (`src/unnamed/part_003`) -/

/-- `Buffer.readUInt8`: out-of-range reads throw (`none`). -/
def readUInt8 (data : List ℕ) (off : ℕ) : Option ℕ :=
  data.get? off

/-- `Buffer.readBigUInt64LE`: 8 bytes little-endian, throwing (`none`)
when fewer than 8 bytes remain. -/
def readBigUInt64LE (data : List ℕ) (off : ℕ) : Option ℕ :=
  if off + 8 ≤ data.length then
    some (((data.drop off).take 8).reverse.foldl (fun acc b => acc * 256 + b) 0)
  else none

/-- `Buffer.subarray(start, end)` (clamping, never throwing). -/
def subarray (data : List ℕ) (start stop : ℕ) : List ℕ :=
  (data.drop start).take (stop - start)

/-- `new PublicKey(bytes).toBase58()`: the constructor throws unless the
input is exactly 32 bytes; the base58 rendering itself is the external
bs58 encoder, taken as a parameter. -/
def publicKeyBase58 (b58 : List ℕ → String) (bytes : List ℕ) : Option String :=
  if bytes.length = 32 then some (b58 bytes) else none

/-- The `EvtSwap2` event discriminator. -/
def EVT_SWAP2_DISC : List ℕ := [189, 66, 51, 168, 38, 80, 117, 153]

/-- Payload assembly of `decodeEvtSwap2`, in source key order.  The two
trade amounts and all fee/reserve fields are stringified decimals,
`trade_direction`/`swap_mode` are numbers, and `is_buy` is defined as
`tradeDirection === 1`. -/
def evtSwap2Data (pool config : String) (tradeDirection : ℕ) (hasReferral : Bool)
    (amount0 amount1 swapMode : ℕ)
    (includedFeeInputAmount excludedFeeInputAmount amountLeft outputAmount : ℕ)
    (tradingFee protocolFee referralFee : ℕ)
    (quoteReserveAmount migrationThreshold currentTimestamp : String) :
    List (String × JValue) :=
  [("pool", .str pool),
   ("config", .str config),
   ("trade_direction", .num tradeDirection),
   ("is_buy", .jbool (tradeDirection = 1)),
   ("has_referral", .jbool hasReferral),
   ("amount0", .str (toString amount0)),
   ("amount1", .str (toString amount1)),
   ("swap_mode", .num swapMode),
   ("included_fee_input_amount", .str (toString includedFeeInputAmount)),
   ("excluded_fee_input_amount", .str (toString excludedFeeInputAmount)),
   ("amount_left", .str (toString amountLeft)),
   ("output_amount", .str (toString outputAmount)),
   ("trading_fee", .str (toString tradingFee)),
   ("protocol_fee", .str (toString protocolFee)),
   ("referral_fee", .str (toString referralFee)),
   ("quote_reserve_amount", .str quoteReserveAmount),
   ("migration_threshold", .str migrationThreshold),
   ("current_timestamp", .str currentTimestamp)]

/-- `MeteoraDBCParser.decodeEvtSwap2`: field-by-field binary decode at the
source offsets; any throwing read is caught and yields `none`. -/
def decodeEvtSwap2 (b58 : List ℕ → String) (data : List ℕ) :
    Option (String × List (String × JValue)) :=
  match publicKeyBase58 b58 (subarray data 8 40) with
  | none => none
  | some pool =>
  match publicKeyBase58 b58 (subarray data 40 72) with
  | none => none
  | some config =>
  match readUInt8 data 72 with
  | none => none
  | some tradeDirection =>
  match readUInt8 data 73 with
  | none => none
  | some hasReferralByte =>
  match readBigUInt64LE data 74 with
  | none => none
  | some amount0 =>
  match readBigUInt64LE data 82 with
  | none => none
  | some amount1 =>
  match readUInt8 data 90 with
  | none => none
  | some swapMode =>
  match readBigUInt64LE data 91 with
  | none => none
  | some includedFeeInputAmount =>
  match readBigUInt64LE data 99 with
  | none => none
  | some excludedFeeInputAmount =>
  match readBigUInt64LE data 107 with
  | none => none
  | some amountLeft =>
  match readBigUInt64LE data 115 with
  | none => none
  | some outputAmount =>
  match readBigUInt64LE data 139 with
  | none => none
  | some tradingFee =>
  match readBigUInt64LE data 147 with
  | none => none
  | some protocolFee =>
  match readBigUInt64LE data 155 with
  | none => none
  | some referralFee =>
  some ("EvtSwap2",
    evtSwap2Data pool config tradeDirection (hasReferralByte ≠ 0) amount0 amount1 swapMode
      includedFeeInputAmount excludedFeeInputAmount amountLeft outputAmount
      tradingFee protocolFee referralFee
      (((readBigUInt64LE data 163).map toString).getD "0")
      (((readBigUInt64LE data 171).map toString).getD "0")
      (((readBigUInt64LE data 179).map toString).getD "0"))

/-- `MeteoraDBCParser.decodeEvent`: discriminator dispatch in front of
`decodeEvtSwap2`. -/
def decodeEvent (b58 : List ℕ → String) (data : List ℕ) :
    Option (String × List (String × JValue)) :=
  if data.length < 8 then none
  else if data.take 8 = EVT_SWAP2_DISC then decodeEvtSwap2 b58 data
  else none

/-! ## Control-plane create validation (`src/unnamed/part_012`) -/

/-- The request body of `POST /pipelines`; fields a client may omit are
optional. -/
structure CreatePipelineRequest where
  name : Option String
  programs : Option (List String)
  filter : Option Filter
  transform : Option Transform
  destinations : Option Destinations

/-- The keys of the `PROGRAMS` catalog of the shared types. -/
def PROGRAM_IDS : List String :=
  ["PUMP_BONDING_CURVE", "METEORA_DBC", "PUMPSWAP",
   "METEORA_DAMM_V1", "METEORA_DAMM_V2", "METEORA_DLMM"]

/-- The validation prefix of the `POST /pipelines` route handler
(routes.ts): reject a missing/empty `programs` array, then a
missing/key-less `destinations` object, then any unknown program id; the
handler never inspects whether any destination is enabled. -/
def validateCreatePipeline (body : CreatePipelineRequest) : Except String Unit :=
  match body.programs with
  | none => .error "programs is required and must be a non-empty array"
  | some programs =>
    if programs.length = 0 then .error "programs is required and must be a non-empty array"
    else
      match body.destinations with
      | none => .error "At least one destination is required"
      | some destinations =>
        if destinationsKeyCount destinations = 0 then
          .error "At least one destination is required"
        else
          match programs.find? (fun programId => !(PROGRAM_IDS.contains programId)) with
          | some bad => .error ("Invalid program: " ++ bad)
          | none => .ok ()

/-! ## Auxiliary predicates and concrete inputs used by the theorems -/

/-- Keys of an association list are duplicate-free (the JS `Map` shape). -/
def keysNodup {α : Type} (m : List (String × α)) : Prop :=
  (m.map Prod.fst).Nodup

/-- Every bucket of the program index is duplicate-free (the JS `Set` shape). -/
def bucketsWf (idx : List (String × List String)) : Prop :=
  ∀ g b, mapGet idx g = some b → b.Nodup

/-- `id` is indexed under `g` in the engine's program index. -/
def InIdx (st : PipelineEngine) (g id : String) : Prop :=
  ∃ b, mapGet st.programIndex g = some b ∧ id ∈ b

/-- Well-formedness of the engine state: map/set shapes, stored pipelines
keyed by their own id, and the two directions of the index invariant plus
the no-empty-bucket property. -/
structure EngineWf (st : PipelineEngine) : Prop where
  pNodup : keysNodup st.pipelines
  iNodup : keysNodup st.programIndex
  bWf : bucketsWf st.programIndex
  idCoh : ∀ id p, mapGet st.pipelines id = some p → p.id = id
  complete : ∀ id p g, mapGet st.pipelines id = some p → g ∈ p.programs → InIdx st g id
  noStale : ∀ g id, InIdx st g id → ∃ p, mapGet st.pipelines id = some p ∧ g ∈ p.programs
  noEmpty : ∀ g b, mapGet st.programIndex g = some b → b ≠ []

/-- A fetch attempt outcome on which the webhook loop retries: a thrown
transport error or a response that is neither 2xx nor 4xx. -/
def retryableOutcome : FetchResult → Prop
  | .thrown => True
  | .resp s => ¬(200 ≤ s ∧ s < 300) ∧ ¬(400 ≤ s ∧ s < 500)

/-- A client-error response (status in [400, 500)). -/
def clientErrorOutcome : FetchResult → Prop
  | .thrown => False
  | .resp s => 400 ≤ s ∧ s < 500

/-- Numeric payload of a pipe application (0 for non-numeric results). -/
def pipeNum (toISO : ℚ → String) (v : JValue) (p : TransformPipe) : ℚ :=
  match applyPipe toISO v p with
  | .num q => q
  | _ => 0

/-- A neutral demo event used to instantiate hypotheses at concrete
inputs. -/
def demoEvent : DecodedEvent :=
  { id := "sig:addr:0", program := "METEORA_DBC", programAddress := "addr",
    name := "SellEvent", signature := "sig", slot := 1, blockTime := 2,
    signer := "signer11111111111111111111111111111", source := ⟨"direct", none⟩,
    data := [("is_buy", .jbool false)] }

/-- The filter whose only key is `isBuy: true`. -/
def isBuyOnlyFilter : Filter :=
  .mk none none none none none (some true) none none none none none

/-- A filter with a non-empty `$and` and a sibling `instructions` key that
matches nothing. -/
def andWithSibling : Filter :=
  .mk (some ["NoSuchEvent"]) none none none none none none none
    (some [emptyFilter]) none none

/-- An event whose data carries only `trade_direction: 0` with a neutral
event name (no "buy"/"sell" substring, no `is_buy` field). -/
def dirZeroEvent : DecodedEvent :=
  { id := "sig:addr:0", program := "METEORA_DBC", programAddress := "addr",
    name := "EvtSwap2", signature := "sig", slot := 1, blockTime := 2,
    signer := "signer11111111111111111111111111111", source := ⟨"direct", none⟩,
    data := [("trade_direction", .num 0)] }

/-- A webhook destination with three linear-backoff attempts. -/
def linearDest : WebhookDestination :=
  { enabled := true, url := "https://example.invalid/hook", method := none,
    headers := [], signing := none, retry := some ⟨some 3, some .linear⟩ }

/-- A disabled webhook destination carrying signing and retry config. -/
def disabledDest : WebhookDestination :=
  { enabled := false, url := "https://example.invalid/hook", method := none,
    headers := [], signing := some ⟨"secret", none⟩, retry := some ⟨some 5, some .exponential⟩ }

/-- Fetch outcomes: attempt 1 gets a 500, attempt 2 gets a 404. -/
def fr500then404 : ℕ → FetchResult :=
  fun k => if k = 1 then .resp 500 else .resp 404

/-- A pipeline violating both invariants of C5: empty `programs` and a
destinations bundle whose only entry is disabled. -/
def c5BadPipeline : Pipeline :=
  { id := "bad-pipeline", name := "bad", apiKey := "key", programs := [],
    filter := emptyFilter, transform := ⟨"template", some "raw", none, none⟩,
    destinations := { Destinations.empty with
      webhook := some { enabled := false, url := "https://example.invalid", method := none,
                        headers := [], signing := none, retry := none } },
    status := .active, createdAt := 0, updatedAt := 0 }

/-- A create request whose single destination is disabled (and whose
programs are valid). -/
def c5DisabledBody : CreatePipelineRequest :=
  { name := some "p", programs := some ["PUMPSWAP"], filter := none, transform := none,
    destinations := some { Destinations.empty with
      webhook := some { enabled := false, url := "https://example.invalid", method := none,
                        headers := [], signing := none, retry := none } } }

/-- A decoder that succeeds with a fixed single event. -/
def constParser (pid addr evName : String) : ProgramParser :=
  { programId := pid, programAddress := addr,
    parse := fun _ => .ok [{ demoEvent with name := evName, program := pid }] }

/-- A decoder that raises on every transaction. -/
def throwingParser (pid addr : String) : ProgramParser :=
  { programId := pid, programAddress := addr,
    parse := fun _ => .error "decoder blew up" }

/-- Two registered demo decoders, in registration order `A` then `B`. -/
def demoParsers : List ProgramParser :=
  [constParser "PUMP_BONDING_CURVE" "addrA" "EventA",
   constParser "METEORA_DBC" "addrB" "EventB"]

/-- A transaction involving both demo programs, address `B` first. -/
def demoUpdateBA : SubscribeUpdate :=
  { transaction := some { accountKeysStatic := ["payer", "addrB", "addrA"],
                          loadedWritable := [], loadedReadonly := [] } }

/-- The concatenation the claim asserts: every registered decoder's output
(in registration order) for the decoders involved in the transaction.
This definition follows the words of the claim, not the source, and is the
comparison point for the refutation. -/
def registrationOrderConcat (parsers : List ProgramParser) (update : SubscribeUpdate) :
    List DecodedEvent :=
  match update.transaction with
  | none => []
  | some tx =>
    (parsers.filter (fun p => (getAccountKeys tx).contains p.programAddress)).foldl
      (fun acc p =>
        match p.parse update with
        | .ok events => acc ++ events
        | .error _ => acc)
      []

/-- First-occurrence deduplication of a list of keys. -/
def dedupKeepFirst (keys : List String) : List String :=
  keys.foldl (fun acc k => if acc.contains k then acc else acc ++ [k]) []

/-- A valid demo pipeline for instantiating the engine theorems. -/
def demoPipeline : Pipeline :=
  { id := "demo-pipeline", name := "demo", apiKey := "key", programs := ["PUMPSWAP"],
    filter := emptyFilter, transform := ⟨"template", some "raw", none, none⟩,
    destinations := { Destinations.empty with
      websocket := some { enabled := true, channelId := none } },
    status := .active, createdAt := 0, updatedAt := 0 }

/-- A 163-byte all-zero `EvtSwap2` payload buffer (the minimal length all
unguarded reads accept). -/
def c9Buffer : List ℕ := List.replicate 163 0

/-- The payload `decodeEvtSwap2` produces for `c9Buffer` under a base58
encoder that renders every 32-byte key as "PK". -/
def c9ZeroData : List (String × JValue) :=
  evtSwap2Data "PK" "PK" 0 false 0 0 0 0 0 0 0 0 0 0 "0" "0" "0"

/-! ## Map/Set lemma kit -/

theorem mapGet_mapSet_self {α : Type} (m : List (String × α)) (k : String) (v : α) :
    mapGet (mapSet m k v) k = some v := by
  induction m with
  | nil => simp [mapSet, mapGet]
  | cons hd tl ih =>
    obtain ⟨k1, v1⟩ := hd
    by_cases h : k1 = k <;> simp [mapSet, mapGet, h, ih]

theorem mapGet_mapSet_ne {α : Type} (m : List (String × α)) (k k' : String) (v : α)
    (h : k' ≠ k) : mapGet (mapSet m k v) k' = mapGet m k' := by
  induction m with
  | nil => simp [mapSet, mapGet, Ne.symm h]
  | cons hd tl ih =>
    obtain ⟨k1, v1⟩ := hd
    by_cases h1 : k1 = k
    · subst h1
      simp [mapSet, mapGet, Ne.symm h]
    · simp [mapSet, mapGet, h1, ih]

theorem mapGet_mapDelete_ne {α : Type} (m : List (String × α)) (k k' : String)
    (h : k' ≠ k) : mapGet (mapDelete m k) k' = mapGet m k' := by
  induction m with
  | nil => simp [mapDelete, mapGet]
  | cons hd tl ih =>
    obtain ⟨k1, v1⟩ := hd
    by_cases h1 : k1 = k
    · subst h1
      simp [mapDelete, mapGet, Ne.symm h]
    · simp [mapDelete, mapGet, h1, ih]

theorem mapGet_eq_none_iff {α : Type} (m : List (String × α)) (k : String) :
    mapGet m k = none ↔ k ∉ m.map Prod.fst := by
  induction m with
  | nil => simp [mapGet]
  | cons hd tl ih =>
    obtain ⟨k1, v1⟩ := hd
    by_cases h1 : k1 = k
    · subst h1
      simp [mapGet]
    · simp [mapGet, h1, ih, Ne.symm h1]

theorem mapGet_mapDelete_self {α : Type} (m : List (String × α)) (k : String)
    (h : keysNodup m) : mapGet (mapDelete m k) k = none := by
  induction m with
  | nil => simp [mapDelete, mapGet]
  | cons hd tl ih =>
    obtain ⟨k1, v1⟩ := hd
    rw [keysNodup, List.map_cons, List.nodup_cons] at h
    by_cases h1 : k1 = k
    · subst h1
      simp only [mapDelete, if_pos rfl]
      exact (mapGet_eq_none_iff tl k1).mpr h.1
    · simp [mapDelete, mapGet, h1, ih h.2]

theorem keys_mapSet {α : Type} (m : List (String × α)) (k : String) (v : α) :
    (mapSet m k v).map Prod.fst =
      if k ∈ m.map Prod.fst then m.map Prod.fst else m.map Prod.fst ++ [k] := by
  induction m with
  | nil => simp [mapSet]
  | cons hd tl ih =>
    obtain ⟨k1, v1⟩ := hd
    by_cases h1 : k1 = k
    · subst h1
      simp [mapSet]
    · simp only [mapSet, if_neg h1, List.map_cons, ih, List.mem_cons]
      by_cases h2 : k ∈ tl.map Prod.fst <;> simp [h2, Ne.symm h1]

theorem keysNodup_mapSet {α : Type} (m : List (String × α)) (k : String) (v : α)
    (h : keysNodup m) : keysNodup (mapSet m k v) := by
  rw [keysNodup, keys_mapSet]
  by_cases h1 : k ∈ m.map Prod.fst
  · simpa [h1] using h
  · rw [if_neg h1, List.nodup_append]
    refine ⟨h, List.nodup_singleton _, ?_⟩
    intro a ha hb
    simp only [List.mem_singleton] at hb
    exact h1 (hb ▸ ha)

theorem mapDelete_sublist {α : Type} (m : List (String × α)) (k : String) :
    (mapDelete m k).Sublist m := by
  induction m with
  | nil => simp [mapDelete]
  | cons hd tl ih =>
    obtain ⟨k1, v1⟩ := hd
    by_cases h1 : k1 = k
    · simp only [mapDelete, if_pos h1]
      exact List.sublist_cons_self _ _
    · simpa [mapDelete, h1] using List.Sublist.cons₂ (k1, v1) ih

theorem keysNodup_mapDelete {α : Type} (m : List (String × α)) (k : String)
    (h : keysNodup m) : keysNodup (mapDelete m k) := by
  exact List.Nodup.sublist (List.Sublist.map Prod.fst (mapDelete_sublist m k)) h

theorem setAdd_eq (s : List String) (x : String) :
    setAdd s x = if x ∈ s then s else s ++ [x] := by
  by_cases h : x ∈ s
  · have : s.contains x = true := by simpa using h
    simp [setAdd, this, h]
  · have : ¬(s.contains x = true) := by simpa using h
    simp [setAdd, this, h]

theorem mem_setAdd (s : List String) (x y : String) :
    y ∈ setAdd s x ↔ y ∈ s ∨ y = x := by
  rw [setAdd_eq]
  by_cases h : x ∈ s
  · rw [if_pos h]
    constructor
    · exact Or.inl
    · rintro (hy | rfl)
      · exact hy
      · exact h
  · rw [if_neg h]
    simp

theorem setAdd_ne_nil (s : List String) (x : String) : setAdd s x ≠ [] := by
  intro hnil
  have : x ∈ setAdd s x := (mem_setAdd s x x).mpr (Or.inr rfl)
  rw [hnil] at this
  simp at this

theorem nodup_setAdd (s : List String) (x : String) (h : s.Nodup) :
    (setAdd s x).Nodup := by
  rw [setAdd_eq]
  by_cases hx : x ∈ s
  · simpa [hx] using h
  · rw [if_neg hx, List.nodup_append]
    refine ⟨h, List.nodup_singleton _, ?_⟩
    intro a ha hb
    simp only [List.mem_singleton] at hb
    exact hx (hb ▸ ha)

theorem setAdd_idem (s : List String) (x : String) :
    setAdd (setAdd s x) x = setAdd s x := by
  have hx : x ∈ setAdd s x := (mem_setAdd s x x).mpr (Or.inr rfl)
  rw [setAdd_eq (setAdd s x) x, if_pos hx]

theorem mem_setDelete (s : List String) (x y : String) (h : s.Nodup) :
    y ∈ setDelete s x ↔ y ∈ s ∧ y ≠ x := by
  induction s with
  | nil => simp [setDelete]
  | cons hd tl ih =>
    rw [List.nodup_cons] at h
    by_cases h1 : hd = x
    · subst h1
      simp only [setDelete, if_pos rfl]
      constructor
      · intro hy
        exact ⟨List.mem_cons_of_mem _ hy, fun hyx => h.1 (hyx ▸ hy)⟩
      · rintro ⟨hy, hne⟩
        rcases List.mem_cons.mp hy with rfl | hy2
        · exact absurd rfl hne
        · exact hy2
    · simp only [setDelete, if_neg h1, List.mem_cons]
      rw [ih h.2]
      constructor
      · rintro (rfl | ⟨hy, hne⟩)
        · exact ⟨Or.inl rfl, fun hyx => h1 hyx⟩
        · exact ⟨Or.inr hy, hne⟩
      · rintro ⟨rfl | hy, hne⟩
        · exact Or.inl rfl
        · exact Or.inr ⟨hy, hne⟩

theorem nodup_setDelete (s : List String) (x : String) (h : s.Nodup) :
    (setDelete s x).Nodup := by
  induction s with
  | nil => simp [setDelete]
  | cons hd tl ih =>
    rw [List.nodup_cons] at h
    by_cases h1 : hd = x
    · subst h1
      simpa [setDelete] using h.2
    · simp only [setDelete, if_neg h1, List.nodup_cons]
      refine ⟨fun hmem => ?_, ih h.2⟩
      exact h.1 ((mem_setDelete tl x hd h.2).mp hmem).1

theorem setDelete_of_not_mem (s : List String) (x : String) (h : x ∉ s) :
    setDelete s x = s := by
  induction s with
  | nil => simp [setDelete]
  | cons hd tl ih =>
    simp only [List.mem_cons, not_or] at h
    simp [setDelete, Ne.symm h.1, ih h.2]

/-! ## Theorems for the claims -/

/-- C1 (code bug): the claim — and the shared-types comment that
convenience filters are "converted to conditions internally" — require a
filter `{isBuy: true}` to reject an event whose derivable direction is a
sell (explicit `is_buy: false` and an event name containing "sell"); the
shipped `evaluateFilter` never reads the `isBuy` key and accepts the
event. -/
theorem c1_isBuy_convenience_filter_ignored :
    isBuyOnlyFilter.isBuy = some true
    ∧ lookupField demoEvent.data "is_buy" = some (.jbool false)
    ∧ jsIncludes (jsToLower demoEvent.name) "sell" = true
    ∧ evaluateFilter isBuyOnlyFilter demoEvent = true := by
  refine ⟨rfl, rfl, by decide, by decide⟩

/-- C10: a disabled destination, or one with an empty URL, makes
`sendToWebhook` fail immediately: zero HTTP attempts, no sleeps, and no
signature header, whatever the payload, fetch behaviour, or retry
configuration. -/
theorem c10_disabled_or_empty_url_no_attempt
    (sign : String → String → String) (fr : ℕ → FetchResult)
    (dest : WebhookDestination) (payload : String)
    (h : dest.enabled = false ∨ dest.url = "") :
    sendToWebhook sign fr dest payload =
      { success := false, attempts := 0, sleeps := [], signatureHeader := none } := by
  rcases h with h | h <;> simp [sendToWebhook, h]

theorem c10_witness :
    sendToWebhook (fun _ _ => "mac") fr500then404 disabledDest "payload" =
      { success := false, attempts := 0, sleeps := [], signatureHeader := none } :=
  c10_disabled_or_empty_url_no_attempt (fun _ _ => "mac") fr500then404 disabledDest "payload"
    (Or.inl rfl)

theorem jsRound_mono {a b : ℚ} (h : a ≤ b) : jsRound a ≤ jsRound b := by
  simp only [jsRound]
  exact_mod_cast Int.floor_le_floor (by linarith)

/-- C7: pipe laws of `applyPipe` (JS numbers idealized as exact rationals):
`lamportsToSol` multiplied back by 10⁹ returns the input for safe-range
integers; `shorten` is the identity on strings of length ≤ 12;
`bondingCurveProgress` is 0 at the initial-reserves constant and 100 at 0,
and is monotonically nonincreasing in its input. -/
theorem c7_pipe_laws (toISO : ℚ → String) (x : ℤ) (s : String) (q1 q2 : ℚ) :
    (x.natAbs ≤ 9007199254740991 →
      pipeNum toISO (.num (x : ℚ)) .lamportsToSol * 1000000000 = (x : ℚ))
    ∧ (s.length ≤ 12 → applyPipe toISO (.str s) .shorten = .str s)
    ∧ pipeNum toISO (.num PUMP_INITIAL_REAL_TOKEN_RESERVES) .bondingCurveProgress = 0
    ∧ pipeNum toISO (.num 0) .bondingCurveProgress = 100
    ∧ (q1 ≤ q2 →
        pipeNum toISO (.num q2) .bondingCurveProgress ≤
          pipeNum toISO (.num q1) .bondingCurveProgress) := by
  refine ⟨?_, ?_, ?_, ?_, ?_⟩
  · intro _
    simp only [pipeNum, applyPipe, toNumber, LAMPORTS_PER_SOL]
    norm_num
  · intro h
    simp only [applyPipe, jstr]
    rw [if_neg (by omega)]
  · simp only [pipeNum, applyPipe, toNumber, PUMP_INITIAL_REAL_TOKEN_RESERVES, jsRound]
    norm_num
  · simp only [pipeNum, applyPipe, toNumber, PUMP_INITIAL_REAL_TOKEN_RESERVES, jsRound]
    norm_num
  · intro h
    simp only [pipeNum, applyPipe, toNumber]
    have hI : (0 : ℚ) < PUMP_INITIAL_REAL_TOKEN_RESERVES := by
      norm_num [PUMP_INITIAL_REAL_TOKEN_RESERVES]
    have hp : (PUMP_INITIAL_REAL_TOKEN_RESERVES - q2) / PUMP_INITIAL_REAL_TOKEN_RESERVES * 100 ≤
        (PUMP_INITIAL_REAL_TOKEN_RESERVES - q1) / PUMP_INITIAL_REAL_TOKEN_RESERVES * 100 := by
      have h1 : PUMP_INITIAL_REAL_TOKEN_RESERVES - q2 ≤
          PUMP_INITIAL_REAL_TOKEN_RESERVES - q1 := by linarith
      have h2 := (div_le_div_iff_of_pos_right hI).mpr h1
      exact mul_le_mul_of_nonneg_right h2 (by norm_num)
    have hc : max 0 (min 100 ((PUMP_INITIAL_REAL_TOKEN_RESERVES - q2) /
          PUMP_INITIAL_REAL_TOKEN_RESERVES * 100)) * 100 ≤
        max 0 (min 100 ((PUMP_INITIAL_REAL_TOKEN_RESERVES - q1) /
          PUMP_INITIAL_REAL_TOKEN_RESERVES * 100)) * 100 :=
      mul_le_mul_of_nonneg_right (max_le_max le_rfl (min_le_min le_rfl hp)) (by norm_num)
    have hr := jsRound_mono hc
    exact (div_le_div_iff_of_pos_right (by norm_num : (0:ℚ) < 100)).mpr hr

theorem c7_witness :
    pipeNum (fun _ => "") (.num ((5 : ℤ) : ℚ)) .lamportsToSol * 1000000000 = ((5 : ℤ) : ℚ)
    ∧ applyPipe (fun _ => "") (.str "abc") .shorten = .str "abc"
    ∧ pipeNum (fun _ => "") (.num 1) .bondingCurveProgress ≤
        pipeNum (fun _ => "") (.num 0) .bondingCurveProgress := by
  obtain ⟨h1, h2, _, _, h5⟩ := c7_pipe_laws (fun _ => "") 5 "abc" 0 1
  exact ⟨h1 (by norm_num), h2 (by decide), h5 (by norm_num)⟩

theorem evalAllFilters_eq_all (l : List Filter) (e : DecodedEvent) :
    evalAllFilters l e = l.all (fun f => evaluateFilter f e) := by
  induction l with
  | nil => rfl
  | cons f fs ih => simp [evalAllFilters, ih]

theorem evalAnyFilter_eq_any (l : List Filter) (e : DecodedEvent) :
    evalAnyFilter l e = l.any (fun f => evaluateFilter f e) := by
  induction l with
  | nil => rfl
  | cons f fs ih => simp [evalAnyFilter, ih]

theorem evaluateFilter_and_branch (i : Option (List String)) (a : Option FilterAccounts)
    (c : Option (List FilterCondition)) (m w : Option (List String)) (b : Option Bool)
    (sA tA : Option AmountRange) (F : List Filter) (o : Option (List Filter))
    (cd : Option String) (e : DecodedEvent) (hne : F ≠ []) :
    evaluateFilter (.mk i a c m w b sA tA (some F) o cd) e = evalAllFilters F e := by
  cases F with
  | nil => exact absurd rfl hne
  | cons f fs =>
    unfold evaluateFilter
    simp [Filter.isEmptyObj]

theorem evaluateFilter_or_branch (i : Option (List String)) (a : Option FilterAccounts)
    (c : Option (List FilterCondition)) (m w : Option (List String)) (b : Option Bool)
    (sA tA : Option AmountRange) (an : Option (List Filter)) (F : List Filter)
    (cd : Option String) (e : DecodedEvent)
    (han : an = none ∨ an = some []) (hne : F ≠ []) :
    evaluateFilter (.mk i a c m w b sA tA an (some F) cd) e = evalAnyFilter F e := by
  cases F with
  | nil => exact absurd rfl hne
  | cons f fs =>
    unfold evaluateFilter
    rcases han with rfl | rfl <;> simp [Filter.isEmptyObj]

/-- C6 counterexample: the claim equates evaluation of a filter carrying an
`$or` list with the disjunction over its children, but for the filter
`{"$or": []}` the code returns `true` while the empty disjunction is
`false`. -/
theorem c6_or_empty_counterexample :
    evaluateFilter (mkOr []) demoEvent ≠
      ([] : List Filter).any (fun f => evaluateFilter f demoEvent) := by
  decide

/-- C6 (amended): the empty filter evaluates to `true`; a filter whose only
key is a `$and` list evaluates to the conjunction over its children; a
filter whose only key is a *non-empty* `$or` list evaluates to the
disjunction over its children (an empty `$or` list is skipped and the
filter passes). -/
theorem c6_empty_and_or_amended (e : DecodedEvent) (F : List Filter) :
    evaluateFilter emptyFilter e = true
    ∧ evaluateFilter (mkAnd F) e = F.all (fun f => evaluateFilter f e)
    ∧ (F ≠ [] → evaluateFilter (mkOr F) e = F.any (fun f => evaluateFilter f e)) := by
  refine ⟨by simp [evaluateFilter, emptyFilter, Filter.isEmptyObj], ?_, ?_⟩
  · cases F with
    | nil => simp [evaluateFilter, mkAnd, Filter.isEmptyObj, evalChecks]
    | cons f fs =>
      rw [mkAnd, evaluateFilter_and_branch _ _ _ _ _ _ _ _ _ _ _ _ (List.cons_ne_nil f fs)]
      exact evalAllFilters_eq_all _ e
  · intro hne
    rw [mkOr, evaluateFilter_or_branch _ _ _ _ _ _ _ _ _ _ _ _ (Or.inl rfl) hne]
    exact evalAnyFilter_eq_any _ e

theorem c6_witness :
    evaluateFilter (mkOr [emptyFilter]) demoEvent = true := by
  rw [(c6_empty_and_or_amended demoEvent [emptyFilter]).2.2 (List.cons_ne_nil _ _)]
  decide

/-- C8: a present non-empty `$and` makes `evaluateFilter` return exactly
the conjunction over the `$and` children, whatever the sibling keys of the
filter hold; in the same way a present non-empty `$or` (with no non-empty
`$and`) returns exactly the disjunction, ignoring siblings. -/
theorem c8_logical_ops_ignore_siblings (f : Filter) (F : List Filter) (e : DecodedEvent) :
    (f.andF = some F → F ≠ [] →
      evaluateFilter f e = F.all (fun g => evaluateFilter g e))
    ∧ ((f.andF = none ∨ f.andF = some []) → f.orF = some F → F ≠ [] →
      evaluateFilter f e = F.any (fun g => evaluateFilter g e)) := by
  obtain ⟨i, a, c, m, w, b, sA, tA, an, o, cd⟩ := f
  constructor
  · intro han hne
    simp only [Filter.andF] at han
    subst han
    rw [evaluateFilter_and_branch _ _ _ _ _ _ _ _ _ _ _ _ hne]
    exact evalAllFilters_eq_all _ e
  · intro han ho hne
    simp only [Filter.andF] at han
    simp only [Filter.orF] at ho
    subst ho
    rw [evaluateFilter_or_branch _ _ _ _ _ _ _ _ _ _ _ _ han hne]
    exact evalAnyFilter_eq_any _ e

theorem c8_witness :
    evaluateFilter andWithSibling demoEvent = true := by
  rw [(c8_logical_ops_ignore_siblings andWithSibling [emptyFilter] demoEvent).1 rfl
    (List.cons_ne_nil _ _)]
  decide

/-- C9: every `EvtSwap2` payload emitted by the Meteora DBC decoder labels
`is_buy` as `trade_direction = 1` — the opposite convention from the
transform layer, whose `extractTradeData` labels `trade_direction = 0` as
a buy (shown at a concrete direction-0 event). -/
theorem c9_evtswap2_isBuy_convention (b58 : List ℕ → String) (data : List ℕ)
    (name : String) (evData : List (String × JValue)) (d : ℚ)
    (h : decodeEvtSwap2 b58 data = some (name, evData))
    (hd : lookupField evData "trade_direction" = some (.num d)) :
    lookupField evData "is_buy" = some (.jbool (decide (d = 1)))
    ∧ mapGet (extractTradeData dirZeroEvent) "direction" = some (.str "buy") := by
  constructor
  · unfold decodeEvtSwap2 at h
    repeat' split at h
    all_goals simp at h
    obtain ⟨-, h2⟩ := h
    subst h2
    simp [evtSwap2Data, lookupField] at hd ⊢
    rw [← hd]
    exact_mod_cast Iff.rfl
  · rfl

set_option maxRecDepth 8000 in
theorem c9_witness :
    lookupField c9ZeroData "is_buy" = some (.jbool (decide (((0 : ℕ) : ℚ) = 1))) :=
  (c9_evtswap2_isBuy_convention (fun _ => "PK") c9Buffer "EvtSwap2" c9ZeroData
    ((0 : ℕ) : ℚ) (by rfl) (by rfl)).1

theorem sendLoop_attempts_le (fr : ℕ → FetchResult) (bt : BackoffType) :
    ∀ (remaining attempt : ℕ), (sendLoop fr bt attempt remaining).2.1 ≤ remaining := by
  intro remaining
  induction remaining with
  | zero => intro attempt; simp [sendLoop]
  | succ r ih =>
    intro attempt
    unfold sendLoop
    rcases hfr : fr attempt with status | _
    · by_cases h1 : 200 ≤ status ∧ status < 300
      · simp [hfr, h1]
      · by_cases h2 : 400 ≤ status ∧ status < 500
        · simp [hfr, h1, h2]
        · by_cases h3 : r > 0
          · simpa [hfr, h1, h2, h3] using ih (attempt + 1)
          · simp [hfr, h1, h2, h3]
    · by_cases h3 : r > 0
      · simpa [hfr, h3] using ih (attempt + 1)
      · simp [hfr, h3]

theorem sendLoop_sleeps (fr : ℕ → FetchResult) (bt : BackoffType) :
    ∀ (remaining attempt i d : ℕ),
      (sendLoop fr bt attempt remaining).2.2[i]? = some d →
      d = calculateBackoff (attempt + i) bt := by
  intro remaining
  induction remaining with
  | zero => intro attempt i d h; simp [sendLoop] at h
  | succ r ih =>
    intro attempt i d h
    unfold sendLoop at h
    rcases hfr : fr attempt with status | _ <;> rw [hfr] at h
    · by_cases h1 : 200 ≤ status ∧ status < 300
      · simp [h1] at h
      · by_cases h2 : 400 ≤ status ∧ status < 500
        · simp [h1, h2] at h
        · by_cases h3 : r > 0
          · simp only [if_pos h3, if_neg h1, if_neg h2] at h
            cases i with
            | zero =>
              simp at h
              subst h
              simp
            | succ j =>
              simp at h
              have := ih (attempt + 1) j d h
              rw [this]
              congr 1
              omega
          · simp [h1, h2, h3] at h
    · by_cases h3 : r > 0
      · simp only [if_pos h3] at h
        cases i with
        | zero =>
          simp at h
          subst h
          simp
        | succ j =>
          simp at h
          have := ih (attempt + 1) j d h
          rw [this]
          congr 1
          omega
      · simp [h3] at h

theorem sendLoop_abort (fr : ℕ → FetchResult) (bt : BackoffType) :
    ∀ (j remaining attempt : ℕ), j < remaining →
      (∀ i, i < j → retryableOutcome (fr (attempt + i))) →
      clientErrorOutcome (fr (attempt + j)) →
      sendLoop fr bt attempt remaining =
        (false, j + 1, (List.range j).map (fun i => calculateBackoff (attempt + i) bt)) := by
  intro j
  induction j with
  | zero =>
    intro remaining attempt hlt _ h4
    cases remaining with
    | zero => omega
    | succ r =>
      rw [Nat.add_zero] at h4
      unfold sendLoop
      rcases hfr : fr attempt with s | _
      · rw [hfr] at h4
        have h4' : 400 ≤ s ∧ s < 500 := h4
        have hn2 : ¬(200 ≤ s ∧ s < 300) := by omega
        simp [hn2, h4']
      · rw [hfr] at h4
        exact absurd h4 (by simp [clientErrorOutcome])
  | succ k ih =>
    intro remaining attempt hlt hr h4
    cases remaining with
    | zero => omega
    | succ r =>
      have hr0 : retryableOutcome (fr (attempt + 0)) := hr 0 (by omega)
      rw [Nat.add_zero] at hr0
      have hrpos : r > 0 := by omega
      have hshift : ∀ i, attempt + (i + 1) = attempt + 1 + i := by omega
      have ihr := ih r (attempt + 1) (by omega)
        (fun i hi => by
          have := hr (i + 1) (by omega)
          rwa [hshift i] at this)
        (by
          have : attempt + (k + 1) = attempt + 1 + k := by omega
          rwa [this] at h4)
      unfold sendLoop
      rcases hfr : fr attempt with s | _
      · rw [hfr] at hr0
        obtain ⟨hn2, hn4⟩ := hr0
        simp only [if_pos hrpos, if_neg hn2, if_neg hn4, ihr]
        refine Prod.ext rfl (Prod.ext rfl ?_)
        simp only [List.range_succ_eq_map, List.map_cons, List.map_map, Nat.add_zero,
          List.cons.injEq, true_and]
        apply List.map_congr_left
        intro i _
        simp [Function.comp, hshift i]
      · simp only [if_pos hrpos, ihr]
        refine Prod.ext rfl (Prod.ext rfl ?_)
        simp only [List.range_succ_eq_map, List.map_cons, List.map_map, Nat.add_zero,
          List.cons.injEq, true_and]
        apply List.map_congr_left
        intro i _
        simp [Function.comp, hshift i]

/-- C3: with a retry configuration of `N` attempts, `sendToWebhook` makes
at most `N` HTTP attempts; the sleep after the k-th failed attempt (when an
attempt remains) is `2^(k−1)·1000` ms under exponential and `k·1000` ms
under linear backoff; and a 4xx response aborts at once with a failure
result and no further attempts. -/
theorem c3_webhook_retry_budget (sign : String → String → String) (fr : ℕ → FetchResult)
    (dest : WebhookDestination) (payload : String) (N : ℕ) (bt : BackoffType)
    (hen : dest.enabled = true) (hurl : dest.url ≠ "")
    (hretry : dest.retry = some ⟨some N, some bt⟩) :
    (sendToWebhook sign fr dest payload).attempts ≤ N
    ∧ (∀ i d, (sendToWebhook sign fr dest payload).sleeps[i]? = some d →
        d = (match bt with | .linear => (i + 1) * 1000 | .exponential => 2 ^ i * 1000))
    ∧ (∀ j, j < N → (∀ i, i < j → retryableOutcome (fr (1 + i))) →
        clientErrorOutcome (fr (1 + j)) →
        (sendToWebhook sign fr dest payload).success = false
        ∧ (sendToWebhook sign fr dest payload).attempts = j + 1) := by
  have hsend : sendToWebhook sign fr dest payload =
      { success := (sendLoop fr bt 1 N).1, attempts := (sendLoop fr bt 1 N).2.1,
        sleeps := (sendLoop fr bt 1 N).2.2,
        signatureHeader :=
          match dest.signing with
          | some sg =>
            if sg.secret = "" then none
            else some (sg.header.getD "X-Tada-Signature", "sha256=" ++ sign payload sg.secret)
          | none => none } := by
    unfold sendToWebhook
    rw [if_neg (by simp [hen, hurl])]
    rw [hretry]
    rfl
  refine ⟨?_, ?_, ?_⟩
  · rw [hsend]
    exact sendLoop_attempts_le fr bt N 1
  · intro i d h
    rw [hsend] at h
    have := sendLoop_sleeps fr bt N 1 i d h
    rw [this]
    cases bt with
    | exponential => simp [calculateBackoff]
    | linear =>
      simp only [calculateBackoff]
      omega
  · intro j hj hr h4
    have := sendLoop_abort fr bt j N 1 hj hr h4
    rw [hsend, this]
    exact ⟨rfl, rfl⟩

theorem c3_witness :
    (sendToWebhook (fun _ _ => "mac") fr500then404 linearDest "payload").success = false
    ∧ (sendToWebhook (fun _ _ => "mac") fr500then404 linearDest "payload").attempts = 2 := by
  have h := c3_webhook_retry_budget (fun _ _ => "mac") fr500then404 linearDest "payload"
    3 .linear rfl (by decide) rfl
  refine h.2.2 1 (by norm_num) ?_ ?_
  · intro i hi
    have hi0 : i = 0 := by omega
    subst hi0
    show retryableOutcome (fr500then404 1)
    have : fr500then404 1 = .resp 500 := rfl
    rw [this]
    exact ⟨by omega, by omega⟩
  · show clientErrorOutcome (fr500then404 2)
    have : fr500then404 2 = .resp 404 := rfl
    rw [this]
    exact ⟨by omega, by omega⟩

theorem removeFromIndex_pipelines (id : String) (st : PipelineEngine) :
    (removeFromIndex id st).pipelines = st.pipelines := by
  unfold removeFromIndex
  split <;> rfl

/-- C5 counterexample: a pipeline with an empty `programs` array and no
enabled destination is stored anyway — `upsertPipeline` refuses nothing. -/
theorem c5_upsert_accepts_invalid_counterexample :
    c5BadPipeline.programs = []
    ∧ c5BadPipeline.destinations.someEnabled = false
    ∧ mapGet (upsertPipeline c5BadPipeline PipelineEngine.empty).pipelines
        c5BadPipeline.id = some c5BadPipeline := by
  refine ⟨rfl, rfl, rfl⟩

/-- C5 (amended): the engine's `upsertPipeline` performs no validation and
stores any pipeline unconditionally; the rejection of an empty `programs`
array happens in the API route's create validation, which also rejects a
destinations object with no keys — but accepts a bundle whose entries are
all disabled. -/
theorem c5_validation_at_create_amended (p : Pipeline) (st : PipelineEngine)
    (body : CreatePipelineRequest) :
    mapGet (upsertPipeline p st).pipelines p.id = some p
    ∧ (body.programs = none ∨ body.programs = some [] →
        validateCreatePipeline body = .error "programs is required and must be a non-empty array")
    ∧ (∀ ps d, body.programs = some ps → ps ≠ [] → body.destinations = some d →
        destinationsKeyCount d = 0 →
        validateCreatePipeline body = .error "At least one destination is required")
    ∧ validateCreatePipeline c5DisabledBody = .ok () := by
  refine ⟨?_, ?_, ?_, by rfl⟩
  · unfold upsertPipeline
    rw [show (addToIndex p { (if (mapGet st.pipelines p.id).isSome then
          removeFromIndex p.id st else st) with
        pipelines := mapSet (if (mapGet st.pipelines p.id).isSome then
          removeFromIndex p.id st else st).pipelines p.id p }).pipelines =
        mapSet (if (mapGet st.pipelines p.id).isSome then
          removeFromIndex p.id st else st).pipelines p.id p from rfl]
    exact mapGet_mapSet_self _ _ _
  · rintro (h | h) <;> simp [validateCreatePipeline, h]
  · intro ps d hps hne hd hcount
    simp [validateCreatePipeline, hps, hd, hcount, hne]

theorem c5_witness :
    mapGet (upsertPipeline c5BadPipeline PipelineEngine.empty).pipelines "bad-pipeline"
      = some c5BadPipeline
    ∧ validateCreatePipeline c5DisabledBody = .ok () := by
  have h := c5_validation_at_create_amended c5BadPipeline PipelineEngine.empty
    { name := none, programs := some [], filter := none, transform := none,
      destinations := none }
  exact ⟨h.1, h.2.2.2⟩

theorem parserMap_addr (parsers : List ProgramParser) (k : String) (p : ProgramParser)
    (h : mapGet (parserMap parsers) k = some p) : p.programAddress = k := by
  suffices hgen : ∀ (ps : List ProgramParser) (m : List (String × ProgramParser)),
      (∀ k' p', mapGet m k' = some p' → p'.programAddress = k') →
      ∀ k' p', mapGet (ps.foldl (fun m p => mapSet m p.programAddress p) m) k' = some p' →
        p'.programAddress = k' by
    exact hgen parsers [] (by intro k' p' h'; simp [mapGet] at h') k p h
  intro ps
  induction ps with
  | nil => intro m hm k' p' h'; exact hm k' p' h'
  | cons q qs ih =>
    intro m hm k' p' h'
    refine ih (mapSet m q.programAddress q) ?_ k' p' h'
    intro k2 p2 h2
    by_cases hk : k2 = q.programAddress
    · subst hk
      rw [mapGet_mapSet_self] at h2
      cases h2
      rfl
    · rw [mapGet_mapSet_ne _ _ _ _ hk] at h2
      exact hm k2 p2 h2

theorem involvedParsers_eq_dedup (parsers : List ProgramParser) :
    ∀ (keys : List String) (accK : List String),
      keys.foldl
        (fun acc accountKey =>
          match mapGet (parserMap parsers) accountKey with
          | some parser =>
            if acc.any (fun q => q.programAddress = parser.programAddress) then acc
            else acc ++ [parser]
          | none => acc)
        (accK.filterMap (fun k => mapGet (parserMap parsers) k))
      = (keys.foldl (fun acc k => if acc.contains k then acc else acc ++ [k]) accK).filterMap
          (fun k => mapGet (parserMap parsers) k) := by
  intro keys
  induction keys with
  | nil => intro accK; rfl
  | cons k keys ih =>
    intro accK
    rcases hk : mapGet (parserMap parsers) k with _ | p
    · simp only [List.foldl_cons, hk]
      by_cases hmem : accK.contains k
      · rw [if_pos hmem]
        exact ih accK
      · rw [if_neg hmem]
        have : (accK ++ [k]).filterMap (fun k => mapGet (parserMap parsers) k) =
            accK.filterMap (fun k => mapGet (parserMap parsers) k) := by
          simp [List.filterMap_append, hk]
        rw [← this]
        exact ih (accK ++ [k])
    · have haddr : p.programAddress = k := parserMap_addr parsers k p hk
      have htest : (accK.filterMap (fun k => mapGet (parserMap parsers) k)).any
          (fun q => q.programAddress = p.programAddress) = accK.contains k := by
        rw [Bool.eq_iff_iff]
        simp only [List.any_eq_true, List.mem_filterMap, decide_eq_true_eq]
        rw [show (accK.contains k = true) ↔ k ∈ accK by simp]
        constructor
        · rintro ⟨q, ⟨k', hk', hq⟩, hqa⟩
          have hqk : q.programAddress = k' := parserMap_addr parsers k' q hq
          rw [haddr] at hqa
          have hkk : k' = k := by rw [← hqk]; exact hqa
          rwa [hkk] at hk'
        · intro hmem
          exact ⟨p, ⟨k, hmem, hk⟩, rfl⟩
      simp only [List.foldl_cons, hk]
      by_cases hmem : accK.contains k
      · rw [htest, if_pos hmem, if_pos hmem]
        exact ih accK
      · rw [htest, if_neg hmem, if_neg hmem]
        have : (accK ++ [k]).filterMap (fun k => mapGet (parserMap parsers) k) =
            accK.filterMap (fun k => mapGet (parserMap parsers) k) ++ [p] := by
          simp [List.filterMap_append, hk]
        rw [← this]
        exact ih (accK ++ [k])

theorem foldl_ok_events (update : SubscribeUpdate) :
    ∀ (l : List ProgramParser) (acc : List DecodedEvent),
      l.foldl
        (fun allEvents parser =>
          match parser.parse update with
          | .ok events => allEvents ++ events
          | .error _ => allEvents)
        acc
      = acc ++ l.flatMap
          (fun p => match p.parse update with | .ok events => events | .error _ => []) := by
  intro l
  induction l with
  | nil => intro acc; simp
  | cons p ps ih =>
    intro acc
    rcases hp : p.parse update with e | events <;>
      simp [List.foldl_cons, hp, ih, List.append_assoc]

/-- C4 counterexample: for a transaction whose account keys list the
second-registered program's address before the first's, `parseTransaction`
returns the decoders' outputs in account-key order, not in registration
order as the claim asserts. -/
theorem c4_registration_order_counterexample :
    (parseTransaction demoParsers demoUpdateBA).map (fun e => e.name) = ["EventB", "EventA"]
    ∧ (registrationOrderConcat demoParsers demoUpdateBA).map (fun e => e.name)
        = ["EventA", "EventB"]
    ∧ (parseTransaction demoParsers demoUpdateBA).map (fun e => e.name)
        ≠ (registrationOrderConcat demoParsers demoUpdateBA).map (fun e => e.name) := by
  refine ⟨rfl, rfl, ?_⟩
  intro h
  rw [show (parseTransaction demoParsers demoUpdateBA).map (fun e => e.name)
      = ["EventB", "EventA"] from rfl] at h
  rw [show (registrationOrderConcat demoParsers demoUpdateBA).map (fun e => e.name)
      = ["EventA", "EventB"] from rfl] at h
  simp at h

/-- C4 (amended): `parseTransaction` returns the concatenation of each
involved decoder's successful event list in the order the decoders'
addresses *first appear in the transaction's account-key list*; a decoder
that raises contributes the empty list without affecting the others. -/
theorem c4_account_key_order_amended (parsers : List ProgramParser)
    (update : SubscribeUpdate) (tx : TransactionEnvelope)
    (h : update.transaction = some tx) :
    parseTransaction parsers update =
      ((dedupKeepFirst (getAccountKeys tx)).filterMap
          (fun k => mapGet (parserMap parsers) k)).flatMap
        (fun p => match p.parse update with | .ok events => events | .error _ => []) := by
  unfold parseTransaction
  rw [h]
  dsimp only
  have hinv : involvedParsers parsers (getAccountKeys tx) =
      (dedupKeepFirst (getAccountKeys tx)).filterMap
        (fun k => mapGet (parserMap parsers) k) := by
    unfold involvedParsers dedupKeepFirst
    simpa using involvedParsers_eq_dedup parsers (getAccountKeys tx) []
  rw [hinv]
  by_cases hlen : ((dedupKeepFirst (getAccountKeys tx)).filterMap
      (fun k => mapGet (parserMap parsers) k)).length = 0
  · rw [if_pos hlen]
    rw [List.length_eq_zero] at hlen
    rw [hlen]
    rfl
  · rw [if_neg hlen]
    simpa using foldl_ok_events update _ []

theorem c4_witness :
    (parseTransaction demoParsers demoUpdateBA).length = 2 := by
  rw [c4_account_key_order_amended demoParsers demoUpdateBA
    { accountKeysStatic := ["payer", "addrB", "addrA"],
      loadedWritable := [], loadedReadonly := [] } rfl]
  rfl

/-! ## Engine index loop characterizations (for C2) -/

theorem addLoop_get (programs : List String) (id : String) :
    ∀ (idx : List (String × List String)) (g : String),
      mapGet (programs.foldl (fun idx programId =>
        mapSet idx programId (setAdd ((mapGet idx programId).getD []) id)) idx) g =
      if g ∈ programs then some (setAdd ((mapGet idx g).getD []) id)
      else mapGet idx g := by
  induction programs with
  | nil => intro idx g; simp
  | cons p ps ih =>
    intro idx g
    simp only [List.foldl_cons]
    rw [ih]
    by_cases hgp : g = p
    · subst hgp
      by_cases hgs : g ∈ ps
      · rw [if_pos hgs, if_pos (by simp)]
        rw [mapGet_mapSet_self]
        simp [setAdd_idem]
      · rw [if_neg hgs, if_pos (by simp)]
        rw [mapGet_mapSet_self]
    · rw [mapGet_mapSet_ne _ _ _ _ hgp]
      by_cases hgs : g ∈ ps
      · rw [if_pos hgs, if_pos (by simp [hgs])]
      · rw [if_neg hgs, if_neg (by simp [hgs, hgp])]

theorem addLoop_keysNodup (programs : List String) (id : String) :
    ∀ (idx : List (String × List String)), keysNodup idx →
      keysNodup (programs.foldl (fun idx programId =>
        mapSet idx programId (setAdd ((mapGet idx programId).getD []) id)) idx) := by
  induction programs with
  | nil => intro idx h; exact h
  | cons p ps ih =>
    intro idx h
    simp only [List.foldl_cons]
    exact ih _ (keysNodup_mapSet _ _ _ h)

theorem remStep_keysNodup (id p : String) (idx : List (String × List String))
    (h : keysNodup idx) :
    keysNodup (match mapGet idx p with
      | none => idx
      | some pipelineIds =>
        let pipelineIds := setDelete pipelineIds id
        if pipelineIds.length = 0 then mapDelete idx p
        else mapSet idx p pipelineIds) := by
  rcases hb : mapGet idx p with _ | b
  · exact h
  · by_cases hlen : (setDelete b id).length = 0
    · simpa [hlen] using keysNodup_mapDelete idx p h
    · simpa [hlen] using keysNodup_mapSet idx p (setDelete b id) h

theorem remStep_bucketsWf (id p : String) (idx : List (String × List String))
    (h1 : keysNodup idx) (h2 : bucketsWf idx) :
    bucketsWf (match mapGet idx p with
      | none => idx
      | some pipelineIds =>
        let pipelineIds := setDelete pipelineIds id
        if pipelineIds.length = 0 then mapDelete idx p
        else mapSet idx p pipelineIds) := by
  rcases hb : mapGet idx p with _ | b
  · exact h2
  · dsimp only
    by_cases hlen : (setDelete b id).length = 0
    · rw [if_pos hlen]
      intro g b' hg
      by_cases hgp : g = p
      · subst hgp
        rw [mapGet_mapDelete_self _ _ h1] at hg
        cases hg
      · rw [mapGet_mapDelete_ne _ _ _ hgp] at hg
        exact h2 g b' hg
    · rw [if_neg hlen]
      intro g b' hg
      by_cases hgp : g = p
      · subst hgp
        rw [mapGet_mapSet_self] at hg
        cases hg
        exact nodup_setDelete _ _ (h2 _ _ hb)
      · rw [mapGet_mapSet_ne _ _ _ _ hgp] at hg
        exact h2 g b' hg

theorem remLoop_get (programs : List String) (id : String) :
    ∀ (idx : List (String × List String)) (g : String),
      keysNodup idx → bucketsWf idx →
      mapGet (programs.foldl (fun idx programId =>
        match mapGet idx programId with
        | none => idx
        | some pipelineIds =>
          let pipelineIds := setDelete pipelineIds id
          if pipelineIds.length = 0 then mapDelete idx programId
          else mapSet idx programId pipelineIds) idx) g =
      if g ∈ programs then
        (match mapGet idx g with
         | none => none
         | some b => if (setDelete b id).length = 0 then none else some (setDelete b id))
      else mapGet idx g := by
  induction programs with
  | nil => intro idx g _ _; simp
  | cons p ps ih =>
    intro idx g h1 h2
    simp only [List.foldl_cons]
    rw [ih _ g (remStep_keysNodup id p idx h1) (remStep_bucketsWf id p idx h1 h2)]
    have hstep : ∀ g', mapGet (match mapGet idx p with
        | none => idx
        | some pipelineIds =>
          let pipelineIds := setDelete pipelineIds id
          if pipelineIds.length = 0 then mapDelete idx p
          else mapSet idx p pipelineIds) g' =
        if g' = p then
          (match mapGet idx p with
           | none => none
           | some b => if (setDelete b id).length = 0 then none else some (setDelete b id))
        else mapGet idx g' := by
      intro g'
      rcases hb : mapGet idx p with _ | b
      · dsimp only
        by_cases hgp : g' = p
        · subst hgp
          rw [if_pos rfl]
          exact hb
        · rw [if_neg hgp]
      · dsimp only
        by_cases hlen : (setDelete b id).length = 0
        · rw [if_pos hlen, if_pos hlen]
          by_cases hgp : g' = p
          · subst hgp
            rw [mapGet_mapDelete_self _ _ h1, if_pos rfl]
          · rw [mapGet_mapDelete_ne _ _ _ hgp, if_neg hgp]
        · rw [if_neg hlen, if_neg hlen]
          by_cases hgp : g' = p
          · subst hgp
            rw [mapGet_mapSet_self, if_pos rfl]
          · rw [mapGet_mapSet_ne _ _ _ _ hgp, if_neg hgp]
    by_cases hgp : g = p
    · subst hgp
      rw [if_pos (List.mem_cons_self g ps)]
      by_cases hgs : g ∈ ps
      · rw [if_pos hgs]
        rw [hstep g, if_pos rfl]
        rcases hb : mapGet idx g with _ | b
        · rfl
        · dsimp only
          by_cases hlen : (setDelete b id).length = 0
          · rw [if_pos hlen]
          · rw [if_neg hlen]
            dsimp only
            have hnodup : b.Nodup := h2 _ _ hb
            have hid : id ∉ setDelete b id := by
              intro hmem
              exact ((mem_setDelete b id id hnodup).mp hmem).2 rfl
            rw [setDelete_of_not_mem _ _ hid, if_neg hlen]
      · rw [if_neg hgs]
        rw [hstep g, if_pos rfl]
    · rw [hstep g, if_neg hgp]
      by_cases hgs : g ∈ ps
      · rw [if_pos hgs, if_pos (by simp [hgs])]
      · rw [if_neg hgs, if_neg (by simp [hgs, hgp])]

theorem remLoop_keysNodup (programs : List String) (id : String) :
    ∀ (idx : List (String × List String)), keysNodup idx →
      keysNodup (programs.foldl (fun idx programId =>
        match mapGet idx programId with
        | none => idx
        | some pipelineIds =>
          let pipelineIds := setDelete pipelineIds id
          if pipelineIds.length = 0 then mapDelete idx programId
          else mapSet idx programId pipelineIds) idx) := by
  induction programs with
  | nil => intro idx h; exact h
  | cons p ps ih =>
    intro idx h
    simp only [List.foldl_cons]
    exact ih _ (remStep_keysNodup id p idx h)

theorem addToIndex_pipelines (p : Pipeline) (st : PipelineEngine) :
    (addToIndex p st).pipelines = st.pipelines := rfl

theorem addToIndex_index (p : Pipeline) (st : PipelineEngine) :
    (addToIndex p st).programIndex =
      p.programs.foldl (fun idx programId =>
        mapSet idx programId (setAdd ((mapGet idx programId).getD []) p.id))
        st.programIndex := rfl

theorem addToIndex_get (p : Pipeline) (st : PipelineEngine) (g : String) :
    mapGet (addToIndex p st).programIndex g =
      if g ∈ p.programs then some (setAdd ((mapGet st.programIndex g).getD []) p.id)
      else mapGet st.programIndex g := by
  rw [addToIndex_index]
  exact addLoop_get p.programs p.id st.programIndex g

theorem removeFromIndex_none (id : String) (st : PipelineEngine)
    (h : mapGet st.pipelines id = none) : removeFromIndex id st = st := by
  unfold removeFromIndex
  rw [h]

theorem removeFromIndex_index (id : String) (st : PipelineEngine) (pipe : Pipeline)
    (hp : mapGet st.pipelines id = some pipe) :
    (removeFromIndex id st).programIndex =
      pipe.programs.foldl (fun idx programId =>
        match mapGet idx programId with
        | none => idx
        | some pipelineIds =>
          let pipelineIds := setDelete pipelineIds id
          if pipelineIds.length = 0 then mapDelete idx programId
          else mapSet idx programId pipelineIds) st.programIndex := by
  unfold removeFromIndex
  rw [hp]

theorem removeFromIndex_get (id : String) (st : PipelineEngine) (pipe : Pipeline)
    (hp : mapGet st.pipelines id = some pipe)
    (h1 : keysNodup st.programIndex) (h2 : bucketsWf st.programIndex) (g : String) :
    mapGet (removeFromIndex id st).programIndex g =
      if g ∈ pipe.programs then
        (match mapGet st.programIndex g with
         | none => none
         | some b => if (setDelete b id).length = 0 then none else some (setDelete b id))
      else mapGet st.programIndex g := by
  rw [removeFromIndex_index id st pipe hp]
  exact remLoop_get pipe.programs id st.programIndex g h1 h2

theorem InIdx_addToIndex (p : Pipeline) (st : PipelineEngine) (g id' : String) :
    InIdx (addToIndex p st) g id' ↔
      InIdx st g id' ∨ (g ∈ p.programs ∧ id' = p.id) := by
  unfold InIdx
  rw [addToIndex_get]
  by_cases hg : g ∈ p.programs
  · rw [if_pos hg]
    constructor
    · rintro ⟨b, hb, hmem⟩
      cases hb
      rcases (mem_setAdd _ _ _).mp hmem with hold | rfl
      · rcases hb0 : mapGet st.programIndex g with _ | b0
        · rw [hb0] at hold
          simp at hold
        · rw [hb0] at hold
          exact Or.inl ⟨b0, rfl, hold⟩
      · exact Or.inr ⟨hg, rfl⟩
    · rintro (⟨b, hb, hmem⟩ | ⟨-, rfl⟩)
      · refine ⟨_, rfl, (mem_setAdd _ _ _).mpr (Or.inl ?_)⟩
        rw [hb]
        exact hmem
      · exact ⟨_, rfl, (mem_setAdd _ _ _).mpr (Or.inr rfl)⟩
  · rw [if_neg hg]
    constructor
    · rintro ⟨b, hb, hmem⟩
      exact Or.inl ⟨b, hb, hmem⟩
    · rintro (⟨b, hb, hmem⟩ | ⟨hgmem, -⟩)
      · exact ⟨b, hb, hmem⟩
      · exact absurd hgmem hg

theorem InIdx_removeFromIndex (id : String) (st : PipelineEngine) (pipe : Pipeline)
    (hp : mapGet st.pipelines id = some pipe)
    (h1 : keysNodup st.programIndex) (h2 : bucketsWf st.programIndex) (g id' : String) :
    InIdx (removeFromIndex id st) g id' ↔
      InIdx st g id' ∧ ¬(g ∈ pipe.programs ∧ id' = id) := by
  unfold InIdx
  rw [removeFromIndex_get id st pipe hp h1 h2]
  by_cases hg : g ∈ pipe.programs
  · rw [if_pos hg]
    rcases hb : mapGet st.programIndex g with _ | b
    · simp
    · dsimp only
      have hnodup : b.Nodup := h2 _ _ hb
      by_cases hlen : (setDelete b id).length = 0
      · rw [if_pos hlen]
        rw [List.length_eq_zero] at hlen
        constructor
        · rintro ⟨b', hb', -⟩
          cases hb'
        · rintro ⟨⟨b', hb', hmem⟩, hnot⟩
          cases hb'
          have : id' ∈ setDelete b id := (mem_setDelete b id id' hnodup).mpr
            ⟨hmem, fun hne => hnot ⟨hg, hne⟩⟩
          rw [hlen] at this
          simp at this
      · rw [if_neg hlen]
        constructor
        · rintro ⟨b', hb', hmem⟩
          cases hb'
          have := (mem_setDelete b id id' hnodup).mp hmem
          exact ⟨⟨b, rfl, this.1⟩, fun hand => this.2 hand.2⟩
        · rintro ⟨⟨b', hb', hmem⟩, hnot⟩
          cases hb'
          exact ⟨_, rfl, (mem_setDelete b id id' hnodup).mpr
            ⟨hmem, fun hne => hnot ⟨hg, hne⟩⟩⟩
  · rw [if_neg hg]
    constructor
    · rintro ⟨b, hb, hmem⟩
      exact ⟨⟨b, hb, hmem⟩, fun hand => hg hand.1⟩
    · rintro ⟨⟨b, hb, hmem⟩, -⟩
      exact ⟨b, hb, hmem⟩

theorem addToIndex_keysNodup (p : Pipeline) (st : PipelineEngine)
    (h : keysNodup st.programIndex) : keysNodup (addToIndex p st).programIndex := by
  rw [addToIndex_index]
  exact addLoop_keysNodup p.programs p.id st.programIndex h

theorem addToIndex_bucketsWf (p : Pipeline) (st : PipelineEngine)
    (h : bucketsWf st.programIndex) : bucketsWf (addToIndex p st).programIndex := by
  intro g b hb
  rw [addToIndex_get] at hb
  by_cases hg : g ∈ p.programs
  · rw [if_pos hg] at hb
    cases hb
    apply nodup_setAdd
    rcases hb0 : mapGet st.programIndex g with _ | b0
    · simp
    · simpa using h _ _ hb0
  · rw [if_neg hg] at hb
    exact h _ _ hb

theorem addToIndex_noEmpty (p : Pipeline) (st : PipelineEngine)
    (h : ∀ g b, mapGet st.programIndex g = some b → b ≠ []) :
    ∀ g b, mapGet (addToIndex p st).programIndex g = some b → b ≠ [] := by
  intro g b hb
  rw [addToIndex_get] at hb
  by_cases hg : g ∈ p.programs
  · rw [if_pos hg] at hb
    cases hb
    exact setAdd_ne_nil _ _
  · rw [if_neg hg] at hb
    exact h _ _ hb

theorem removeFromIndex_keysNodup (id : String) (st : PipelineEngine)
    (h : keysNodup st.programIndex) : keysNodup (removeFromIndex id st).programIndex := by
  rcases hp : mapGet st.pipelines id with _ | pipe
  · rw [removeFromIndex_none id st hp]
    exact h
  · rw [removeFromIndex_index id st pipe hp]
    exact remLoop_keysNodup pipe.programs id st.programIndex h

theorem removeFromIndex_bucketsWf (id : String) (st : PipelineEngine)
    (h1 : keysNodup st.programIndex) (h2 : bucketsWf st.programIndex) :
    bucketsWf (removeFromIndex id st).programIndex := by
  rcases hp : mapGet st.pipelines id with _ | pipe
  · rw [removeFromIndex_none id st hp]
    exact h2
  · intro g b hb
    rw [removeFromIndex_get id st pipe hp h1 h2] at hb
    by_cases hg : g ∈ pipe.programs
    · rw [if_pos hg] at hb
      rcases hb0 : mapGet st.programIndex g with _ | b0 <;> rw [hb0] at hb
      · cases hb
      · dsimp only at hb
        by_cases hlen : (setDelete b0 id).length = 0
        · rw [if_pos hlen] at hb
          cases hb
        · rw [if_neg hlen] at hb
          cases hb
          exact nodup_setDelete _ _ (h2 _ _ hb0)
    · rw [if_neg hg] at hb
      exact h2 _ _ hb

theorem removeFromIndex_noEmpty (id : String) (st : PipelineEngine)
    (h1 : keysNodup st.programIndex) (h2 : bucketsWf st.programIndex)
    (h : ∀ g b, mapGet st.programIndex g = some b → b ≠ []) :
    ∀ g b, mapGet (removeFromIndex id st).programIndex g = some b → b ≠ [] := by
  rcases hp : mapGet st.pipelines id with _ | pipe
  · rw [removeFromIndex_none id st hp]
    exact h
  · intro g b hb
    rw [removeFromIndex_get id st pipe hp h1 h2] at hb
    by_cases hg : g ∈ pipe.programs
    · rw [if_pos hg] at hb
      rcases hb0 : mapGet st.programIndex g with _ | b0 <;> rw [hb0] at hb
      · cases hb
      · dsimp only at hb
        by_cases hlen : (setDelete b0 id).length = 0
        · rw [if_pos hlen] at hb
          cases hb
        · rw [if_neg hlen] at hb
          cases hb
          intro hnil
          exact hlen (by rw [hnil]; rfl)
    · rw [if_neg hg] at hb
      exact h _ _ hb

theorem wf_upsert (p : Pipeline) (st : PipelineEngine) (h : EngineWf st) :
    EngineWf (upsertPipeline p st) := by
  -- the state after the conditional unindexing of the previous version
  set st1 := if (mapGet st.pipelines p.id).isSome then removeFromIndex p.id st else st with hst1
  have h1pipes : st1.pipelines = st.pipelines := by
    rw [hst1]
    split
    · exact removeFromIndex_pipelines _ _
    · rfl
  have h1keys : keysNodup st1.programIndex := by
    rw [hst1]
    split
    · exact removeFromIndex_keysNodup _ _ h.iNodup
    · exact h.iNodup
  have h1buckets : bucketsWf st1.programIndex := by
    rw [hst1]
    split
    · exact removeFromIndex_bucketsWf _ _ h.iNodup h.bWf
    · exact h.bWf
  have h1noEmpty : ∀ g b, mapGet st1.programIndex g = some b → b ≠ [] := by
    rw [hst1]
    split
    · exact removeFromIndex_noEmpty _ _ h.iNodup h.bWf h.noEmpty
    · exact h.noEmpty
  have h1other : ∀ g id', id' ≠ p.id → (InIdx st1 g id' ↔ InIdx st g id') := by
    intro g id' hne
    rw [hst1]
    split
    · next hsome =>
      obtain ⟨pipe, hp⟩ := Option.isSome_iff_exists.mp hsome
      rw [InIdx_removeFromIndex p.id st pipe hp h.iNodup h.bWf]
      constructor
      · exact fun hh => hh.1
      · exact fun hh => ⟨hh, fun hand => hne hand.2⟩
    · exact Iff.rfl
  have h1self : ∀ g, ¬ InIdx st1 g p.id := by
    intro g hin
    rw [hst1] at hin
    by_cases hsome : (mapGet st.pipelines p.id).isSome
    · rw [if_pos hsome] at hin
      obtain ⟨pipe, hp⟩ := Option.isSome_iff_exists.mp hsome
      rw [InIdx_removeFromIndex p.id st pipe hp h.iNodup h.bWf] at hin
      obtain ⟨hin0, hnot⟩ := hin
      obtain ⟨q, hq, hqprog⟩ := h.noStale g p.id hin0
      have : q = pipe := by rw [hq] at hp; cases hp; rfl
      subst this
      exact hnot ⟨hqprog, rfl⟩
    · rw [if_neg hsome] at hin
      obtain ⟨q, hq, -⟩ := h.noStale g p.id hin
      rw [hq] at hsome
      simp at hsome
  -- the final state
  have hfinal : upsertPipeline p st =
      addToIndex p { st1 with pipelines := mapSet st1.pipelines p.id p } := rfl
  rw [hfinal]
  have hpipes2 : (addToIndex p { st1 with pipelines := mapSet st1.pipelines p.id p }).pipelines
      = mapSet st.pipelines p.id p := by
    rw [addToIndex_pipelines]
    rw [show ({ st1 with pipelines := mapSet st1.pipelines p.id p } : PipelineEngine).pipelines
      = mapSet st1.pipelines p.id p from rfl]
    rw [h1pipes]
  have hindex2 : ∀ g id', InIdx (addToIndex p { st1 with
      pipelines := mapSet st1.pipelines p.id p }) g id' ↔
      InIdx st1 g id' ∨ (g ∈ p.programs ∧ id' = p.id) := by
    intro g id'
    rw [InIdx_addToIndex]
    rfl
  have hget2 : ∀ id', mapGet (mapSet st.pipelines p.id p) id' =
      if id' = p.id then some p else mapGet st.pipelines id' := by
    intro id'
    by_cases hne : id' = p.id
    · subst hne
      rw [if_pos rfl, mapGet_mapSet_self]
    · rw [if_neg hne, mapGet_mapSet_ne _ _ _ _ hne]
  refine ⟨?_, ?_, ?_, ?_, ?_, ?_, ?_⟩
  · rw [hpipes2]
    exact keysNodup_mapSet _ _ _ (by exact h.pNodup)
  · exact addToIndex_keysNodup p _ h1keys
  · exact addToIndex_bucketsWf p _ h1buckets
  · intro id' q hq
    rw [hpipes2, hget2] at hq
    by_cases hne : id' = p.id
    · rw [if_pos hne] at hq
      cases hq
      exact hne.symm
    · rw [if_neg hne] at hq
      exact h.idCoh id' q hq
  · intro id' q g hq hg
    rw [hpipes2, hget2] at hq
    rw [hindex2]
    by_cases hne : id' = p.id
    · rw [if_pos hne] at hq
      cases hq
      exact Or.inr ⟨hg, hne⟩
    · rw [if_neg hne] at hq
      have := h.complete id' q g hq hg
      exact Or.inl ((h1other g id' hne).mpr this)
  · intro g id' hin
    rw [hindex2] at hin
    rcases hin with hin | ⟨hg, rfl⟩
    · by_cases hne : id' = p.id
      · subst hne
        exact absurd hin (h1self g)
      · have := (h1other g id' hne).mp hin
        obtain ⟨q, hq, hqprog⟩ := h.noStale g id' this
        refine ⟨q, ?_, hqprog⟩
        rw [hpipes2, hget2, if_neg hne]
        exact hq
    · refine ⟨p, ?_, hg⟩
      rw [hpipes2, hget2, if_pos rfl]
  · intro g b hb
    have : mapGet (addToIndex p { st1 with
        pipelines := mapSet st1.pipelines p.id p }).programIndex g =
        mapGet (addToIndex p st1).programIndex g := by
      rw [addToIndex_get, addToIndex_get]
    rw [this] at hb
    exact addToIndex_noEmpty p st1 h1noEmpty g b hb

theorem wf_remove (id : String) (st : PipelineEngine) (h : EngineWf st) :
    EngineWf (removePipeline id st).2 := by
  rcases hp : mapGet st.pipelines id with _ | pipe
  · have : removePipeline id st = (false, st) := by
      unfold removePipeline
      rw [if_pos (by rw [hp]; rfl)]
    rw [this]
    exact h
  · have hres : (removePipeline id st).2 =
        { removeFromIndex id st with pipelines := mapDelete st.pipelines id } := by
      unfold removePipeline
      rw [if_neg (by rw [hp]; simp)]
      dsimp only
      rw [removeFromIndex_pipelines]
    rw [hres]
    have hInIdx : ∀ g id', InIdx { removeFromIndex id st with
        pipelines := mapDelete st.pipelines id } g id' ↔
        InIdx st g id' ∧ ¬(g ∈ pipe.programs ∧ id' = id) := by
      intro g id'
      have : InIdx { removeFromIndex id st with
          pipelines := mapDelete st.pipelines id } g id' ↔
          InIdx (removeFromIndex id st) g id' := Iff.rfl
      rw [this]
      exact InIdx_removeFromIndex id st pipe hp h.iNodup h.bWf g id'
    have hget : ∀ id', mapGet (mapDelete st.pipelines id) id' =
        if id' = id then none else mapGet st.pipelines id' := by
      intro id'
      by_cases hne : id' = id
      · subst hne
        rw [if_pos rfl, mapGet_mapDelete_self _ _ h.pNodup]
      · rw [if_neg hne, mapGet_mapDelete_ne _ _ _ hne]
    refine ⟨?_, ?_, ?_, ?_, ?_, ?_, ?_⟩
    · exact keysNodup_mapDelete _ _ h.pNodup
    · exact removeFromIndex_keysNodup id st h.iNodup
    · exact removeFromIndex_bucketsWf id st h.iNodup h.bWf
    · intro id' q hq
      rw [show mapGet ({ removeFromIndex id st with
          pipelines := mapDelete st.pipelines id } : PipelineEngine).pipelines id'
          = mapGet (mapDelete st.pipelines id) id' from rfl, hget] at hq
      by_cases hne : id' = id
      · rw [if_pos hne] at hq
        cases hq
      · rw [if_neg hne] at hq
        exact h.idCoh id' q hq
    · intro id' q g hq hg
      rw [show mapGet ({ removeFromIndex id st with
          pipelines := mapDelete st.pipelines id } : PipelineEngine).pipelines id'
          = mapGet (mapDelete st.pipelines id) id' from rfl, hget] at hq
      by_cases hne : id' = id
      · rw [if_pos hne] at hq
        cases hq
      · rw [if_neg hne] at hq
        rw [hInIdx]
        exact ⟨h.complete id' q g hq hg, fun hand => hne hand.2⟩
    · intro g id' hin
      rw [hInIdx] at hin
      obtain ⟨hin0, hnot⟩ := hin
      obtain ⟨q, hq, hqprog⟩ := h.noStale g id' hin0
      have hne : id' ≠ id := by
        intro hne
        subst hne
        rw [hq] at hp
        cases hp
        exact hnot ⟨hqprog, rfl⟩
      refine ⟨q, ?_, hqprog⟩
      rw [show mapGet ({ removeFromIndex id st with
          pipelines := mapDelete st.pipelines id } : PipelineEngine).pipelines id'
          = mapGet (mapDelete st.pipelines id) id' from rfl, hget, if_neg hne]
      exact hq
    · intro g b hb
      exact removeFromIndex_noEmpty id st h.iNodup h.bWf h.noEmpty g b hb

theorem wf_empty : EngineWf PipelineEngine.empty := by
  refine ⟨?_, ?_, ?_, ?_, ?_, ?_, ?_⟩
  · simp [keysNodup, PipelineEngine.empty]
  · simp [keysNodup, PipelineEngine.empty]
  · intro g b hb
    simp [PipelineEngine.empty, mapGet] at hb
  · intro id q hq
    simp [PipelineEngine.empty, mapGet] at hq
  · intro id q g hq hg
    simp [PipelineEngine.empty, mapGet] at hq
  · rintro g id ⟨b, hb, -⟩
    simp [PipelineEngine.empty, mapGet] at hb
  · intro g b hb
    simp [PipelineEngine.empty, mapGet] at hb

theorem wf_runOps (ops : List EngineOp) : EngineWf (runOps ops) := by
  suffices hgen : ∀ (ops : List EngineOp) (st : PipelineEngine),
      EngineWf st → EngineWf (ops.foldl stepOp st) from
    hgen ops PipelineEngine.empty wf_empty
  intro ops
  induction ops with
  | nil => intro st h; exact h
  | cons op ops ih =>
    intro st h
    simp only [List.foldl_cons]
    refine ih _ ?_
    cases op with
    | upsert p => exact wf_upsert p st h
    | remove id => exact wf_remove id st h

theorem mem_getPipelinesForProgram (st : PipelineEngine) (h : EngineWf st)
    (g : String) (p : Pipeline) :
    p ∈ getPipelinesForProgram g st ↔
      mapGet st.pipelines p.id = some p ∧ g ∈ p.programs
        ∧ p.status = PipelineStatus.active := by
  unfold getPipelinesForProgram
  rcases hb : mapGet st.programIndex g with _ | ids
  · simp only [List.not_mem_nil, false_iff]
    rintro ⟨hq, hg, -⟩
    obtain ⟨b, hb', -⟩ := h.complete p.id p g hq hg
    rw [hb] at hb'
    cases hb'
  · simp only [List.mem_filter, List.mem_filterMap, decide_eq_true_eq]
    constructor
    · rintro ⟨⟨id, hid, hidq⟩, hact⟩
      have hcoh := h.idCoh id p hidq
      subst hcoh
      obtain ⟨q, hq, hqprog⟩ := h.noStale g p.id ⟨ids, hb, hid⟩
      rw [hidq] at hq
      cases hq
      exact ⟨hidq, hqprog, hact⟩
    · rintro ⟨hq, hg, hact⟩
      obtain ⟨b, hb', hmem⟩ := h.complete p.id p g hq hg
      rw [hb] at hb'
      cases hb'
      exact ⟨⟨p.id, hmem, hq⟩, hact⟩

/-- C2: after any finite sequence of `upsertPipeline`/`removePipeline`
calls, `getPipelinesForProgram g` returns exactly the stored pipelines that
list `g` and are active; every index entry points at a stored pipeline
listing that program (no stale entries), and a program whose pipeline set
becomes empty has no bucket (every existing bucket is non-empty). -/
theorem c2_pipeline_index_invariant (ops : List EngineOp) (g : String) (p : Pipeline) :
    (p ∈ getPipelinesForProgram g (runOps ops) ↔
      mapGet (runOps ops).pipelines p.id = some p ∧ g ∈ p.programs
        ∧ p.status = PipelineStatus.active)
    ∧ (∀ b, mapGet (runOps ops).programIndex g = some b →
        b ≠ [] ∧ ∀ id ∈ b, ∃ q, mapGet (runOps ops).pipelines id = some q
          ∧ g ∈ q.programs) := by
  have hwf := wf_runOps ops
  refine ⟨mem_getPipelinesForProgram _ hwf g p, ?_⟩
  intro b hb
  exact ⟨hwf.noEmpty g b hb, fun id hid => hwf.noStale g id ⟨b, hb, hid⟩⟩

theorem c2_witness :
    demoPipeline ∈ getPipelinesForProgram "PUMPSWAP"
      (runOps [EngineOp.upsert demoPipeline, EngineOp.upsert demoPipeline]) := by
  refine (c2_pipeline_index_invariant [EngineOp.upsert demoPipeline,
    EngineOp.upsert demoPipeline] "PUMPSWAP" demoPipeline).1.mpr ⟨?_, ?_, rfl⟩
  · rfl
  · simp [demoPipeline]

end Tada
